import Mathlib

/-!
Verification development for the KitchenOS ingredient normalization and
aggregation core (src/lib/ingredient_parser.py, src/lib/ingredient_aggregator.py,
src/lib/ingredient_validator.py).

Modelling conventions for the shallow embedding:
- Python strings are modelled as Lean `String` (a structure over `List Char`);
  the workers operate on `List Char`.  Text handling is modelled at the ASCII
  level (`str.lower`, `str.strip`, the regex classes `\d`, `\s`, `\w`): the
  repository's data is ASCII and no claim depends on non-ASCII code points.
- Python floats are modelled by the exact rational type `Q` defined below
  (integer numerator, natural denominator, normalized by a fuel-based Euclid so
  every operation reduces inside the kernel).  Decimal literals from the
  source (0.2029, 0.035274, ...) are modelled as the exact decimal rationals;
  IEEE rounding, overflow to infinity and the `inf`/`nan` float literals are
  outside the model (`pyFloat` returns `none` for them).
- Fallible code is modelled with `Except String`: the only raising path in the
  core is `ZeroDivisionError` from `fractions.Fraction("n/0")` inside
  `parse_amount`, which propagates through `parse_ingredient`,
  `repair_ingredient` and `validate_ingredients`.
- Python dicts for ingredient records are modelled by the structure
  `Ingredient` with one `Option` field per key (`none` = key absent);
  `d.get(k, default)` is `(field).getD default`.  Record values are modelled as
  strings (the canonical `{amount, unit, item}` form used by the repository);
  non-dict list entries fed to `validate_ingredients` are modelled as `none`
  entries of `List (Option Ingredient)`.
- Regexes from the source are compiled by hand into character-list scanners.
  `$` is modelled faithfully as "end of string, or just before a final
  newline" (`dollarEnd`); `.` does not match a newline (`dotStarDollar`).
- Functions that recurse over shrinking text (`re.sub` loops) use a fuel
  parameter initialised to the text length; every step consumes at least one
  character, so the fuel never runs out.
-/

namespace KitchenOS

/-! ## Character and list primitives (Python string semantics, ASCII level) -/

/-- Python `\s` / `str.strip` whitespace, ASCII part. -/
def pyIsSpace (c : Char) : Bool :=
  c = ' ' || c = '\t' || c = '\n' || c = '\r' || c = '\x0b' || c = '\x0c'

/-- Python `str.lower` on one ASCII character. -/
def lowerChar (c : Char) : Char :=
  if 'A' ≤ c && c ≤ 'Z' then Char.ofNat (c.toNat + 32) else c

/-- Python `str.lower`. -/
def lowerL (cs : List Char) : List Char := cs.map lowerChar

/-- Python `str.strip()` (both ends). -/
def pyStrip (cs : List Char) : List Char :=
  ((cs.dropWhile pyIsSpace).reverse.dropWhile pyIsSpace).reverse

/-- Python `str.rstrip(set)`. -/
def rstripSet (set : List Char) (cs : List Char) : List Char :=
  (cs.reverse.dropWhile (fun c => set.contains c)).reverse

/-- Longest prefix satisfying `p` together with the rest (deterministic
semantics of a greedy regex character class). -/
def spanL (p : Char → Bool) (cs : List Char) : List Char × List Char :=
  (cs.takeWhile p, cs.dropWhile p)

/-- Test that `pre` is a prefix of `cs` (Python `str.startswith`). -/
def startsWithL : List Char → List Char → Bool
  | [], _ => true
  | _ :: _, [] => false
  | p :: ps, c :: cs => p = c && startsWithL ps cs

/-- Test that `suf` is a suffix of `cs` (Python `str.endswith`). -/
def endsWithL (suf cs : List Char) : Bool :=
  startsWithL suf.reverse cs.reverse

/-- Regex `$`: the match position is the end of the string or just before a
final newline. -/
def dollarEnd (cs : List Char) : Bool := cs = [] || cs = ['\n']

/-- Remainder captured by `(.*)$` when matched against `cs`: `.` does not
cross a newline and `$` accepts at most one final newline. -/
def dotStarDollar (cs : List Char) : Option (List Char) :=
  if cs.contains '\n' then
    if cs.getLast? = some '\n' && !(cs.dropLast.contains '\n') then
      some cs.dropLast
    else none
  else some cs

/-- Numeric value of a digit string (regex group `\d+`). -/
def charsToNat (cs : List Char) : Nat :=
  cs.foldl (fun a c => a * 10 + (c.toNat - 48)) 0

/-- Decimal digits of `n`, most significant first (fuel-based). -/
def natToCharsAux : Nat → Nat → List Char
  | 0, _ => []
  | fuel + 1, n =>
    if n < 10 then [Char.ofNat (n + 48)]
    else natToCharsAux fuel (n / 10) ++ [Char.ofNat (n % 10 + 48)]

/-- Python `str(n)` for a natural number. -/
def natToChars (n : Nat) : List Char := natToCharsAux (n + 1) n

/-- Python `str(n)` for an integer. -/
def intToChars (n : Int) : List Char :=
  if n < 0 then '-' :: natToChars n.natAbs else natToChars n.toNat

/-- Python `' '.join(parts)`. -/
def joinSp : List (List Char) → List Char
  | [] => []
  | [x] => x
  | x :: y :: rest => x ++ ' ' :: joinSp (y :: rest)

/-! ## Exact rational arithmetic (kernel-computable model of Python floats)

Mathlib's `ℚ` operations do not reduce inside `decide`/`rfl`, so the numeric
model uses a small self-contained rational type with a fuel-based Euclid for
normalization.  Values are kept normalized (positive denominator, coprime);
division by zero never occurs in the modelled code paths (conversion factors
and guarded fraction denominators are nonzero). -/

/-- Euclid's algorithm with explicit fuel (the first argument strictly
decreases, so fuel `m + 1` always suffices). -/
def gcdF : Nat → Nat → Nat → Nat
  | 0, _, n => n
  | fuel + 1, m, n => if m = 0 then n else gcdF fuel (n % m) m

/-- Greatest common divisor. -/
def gcdN (m n : Nat) : Nat := gcdF (m + 1) m n

/-- Normalized rational number: `den` is positive and coprime to `num` for
every value built by the operations below. -/
structure Q where
  num : Int
  den : Nat
deriving DecidableEq

/-- Build the normalized rational `n / d` (`d ≠ 0` in all modelled flows). -/
def Q.normPair (n d : Int) : Q :=
  if d = 0 then ⟨0, 0⟩
  else
    let n' := if d < 0 then -n else n
    let d' := d.natAbs
    let g := gcdN n'.natAbs d'
    ⟨n' / (g : Int), d' / g⟩

def Q.ofInt (n : Int) : Q := ⟨n, 1⟩

def Q.ofNat (n : Nat) : Q := ⟨(n : Int), 1⟩

def Q.add (a b : Q) : Q :=
  Q.normPair (a.num * (b.den : Int) + b.num * (a.den : Int)) ((a.den : Int) * (b.den : Int))

def Q.neg (a : Q) : Q := ⟨-a.num, a.den⟩

def Q.sub (a b : Q) : Q := Q.add a (Q.neg b)

def Q.mul (a b : Q) : Q := Q.normPair (a.num * b.num) ((a.den : Int) * (b.den : Int))

def Q.div (a b : Q) : Q := Q.normPair (a.num * (b.den : Int)) ((a.den : Int) * b.num)

/-- Strict comparison (denominators are positive). -/
def Q.ltB (a b : Q) : Bool := a.num * (b.den : Int) < b.num * (a.den : Int)

instance : Add Q := ⟨Q.add⟩

instance : Sub Q := ⟨Q.sub⟩

instance : Neg Q := ⟨Q.neg⟩

instance : Mul Q := ⟨Q.mul⟩

instance : Div Q := ⟨Q.div⟩

instance : OfNat Q n := ⟨Q.ofNat n⟩

/-- Exact power of ten, used for decimal mantissas and exponents. -/
def Q.pow10 (k : Nat) : Q := ⟨(Int.ofNat (10 ^ k)), 1⟩

/-- Floor of a rational as an integer (used by round-half-even). -/
def ratFloor (q : Q) : Int := Int.fdiv q.num q.den

/-- Round to the nearest integer, ties to even: the rounding used by Python's
`round(x, 2)` and the `.2f` format on the values the core produces. -/
def rhe (q : Q) : Int :=
  let f := ratFloor q
  let r := q - Q.ofInt f
  if r.ltB ⟨1, 2⟩ then f
  else if (⟨1, 2⟩ : Q).ltB r then f + 1
  else if f % 2 = 0 then f else f + 1

/-- Fixed two-decimal rendering of a nonnegative rational whose value has been
pre-rounded: digits of `rhe (q*100)` with a decimal point inserted. -/
def fixed2pos (q : Q) : List Char :=
  let n := (rhe (q * Q.ofNat 100)).toNat
  let s := natToChars n
  let s3 := if s.length < 3 then List.replicate (3 - s.length) '0' ++ s else s
  s3.take (s3.length - 2) ++ '.' :: s3.drop (s3.length - 2)

/-- Python `f"{q:.2f}"`. -/
def fixed2 (q : Q) : List Char :=
  if q.ltB ⟨0, 1⟩ then '-' :: fixed2pos (Q.neg q) else fixed2pos q

/-! ## Python `float(str)` (PEP 515 grammar, exact-rational value) -/

/-- Digit run that allows single underscores between digits, returning the
digits collected and the unread rest (fuel-based scanner). -/
def uDigitsAux : Nat → List Char → List Char × List Char
  | 0, cs => ([], cs)
  | fuel + 1, cs =>
    match cs with
    | [] => ([], [])
    | c :: rest =>
      if c.isDigit then
        match rest with
        | '_' :: d :: rest2 =>
          if d.isDigit then
            let (ds, r) := uDigitsAux fuel (d :: rest2)
            (c :: ds, r)
          else ([c], rest)
        | _ =>
          let (ds, r) := uDigitsAux fuel rest
          (c :: ds, r)
      else ([], cs)

/-- Digit run with underscores; `none` when the first character is not a
digit. -/
def uDigits (cs : List Char) : Option (List Char × List Char) :=
  match cs with
  | c :: _ => if c.isDigit then some (uDigitsAux cs.length cs) else none
  | [] => none

/-- Python `float(s)` as an exact rational.  The grammar is
`[ws] [sign] (digits [. digits] | digits . | . digits) [e [sign] digits] [ws]`
with PEP 515 underscores; the IEEE literals `inf`/`infinity`/`nan` are outside
the rational model and yield `none`. -/
def pyFloat (cs0 : List Char) : Option Q :=
  let cs := pyStrip cs0
  let signAndRest : Q × List Char :=
    match cs with
    | '+' :: r => (Q.ofInt 1, r)
    | '-' :: r => (Q.ofInt (-1), r)
    | _ => (Q.ofInt 1, cs)
  let sgn := signAndRest.1
  let cs1 := signAndRest.2
  let intPart : List Char × List Char :=
    match uDigits cs1 with
    | some (ds, r) => (ds, r)
    | none => ([], cs1)
  let ip := intPart.1
  let r1 := intPart.2
  let fracPart : Option (List Char × List Char) :=
    match r1 with
    | '.' :: r2 =>
      match uDigits r2 with
      | some (ds, r3) => some (ds, r3)
      | none => some ([], r2)
    | _ => some ([], r1)
  match fracPart with
  | none => none
  | some (fp, r4) =>
    if ip = [] && fp = [] then none
    else
      let expPart : Option (Int × List Char) :=
        match r4 with
        | 'e' :: r5 =>
          match r5 with
          | '+' :: r6 =>
            match uDigits r6 with
            | some (ds, r7) => some ((charsToNat ds : Int), r7)
            | none => none
          | '-' :: r6 =>
            match uDigits r6 with
            | some (ds, r7) => some (-(charsToNat ds : Int), r7)
            | none => none
          | _ =>
            match uDigits r5 with
            | some (ds, r7) => some ((charsToNat ds : Int), r7)
            | none => none
        | 'E' :: r5 =>
          match r5 with
          | '+' :: r6 =>
            match uDigits r6 with
            | some (ds, r7) => some ((charsToNat ds : Int), r7)
            | none => none
          | '-' :: r6 =>
            match uDigits r6 with
            | some (ds, r7) => some (-(charsToNat ds : Int), r7)
            | none => none
          | _ =>
            match uDigits r5 with
            | some (ds, r7) => some ((charsToNat ds : Int), r7)
            | none => none
        | _ => some (0, r4)
      match expPart with
      | none => none
      | some (e, rest) =>
        if rest = [] then
          let mant : Q := Q.ofNat (charsToNat ip) + Q.ofNat (charsToNat fp) / Q.pow10 fp.length
          let scaled : Q :=
            if e < 0 then mant / Q.pow10 e.natAbs else mant * Q.pow10 e.toNat
          some (sgn * scaled)
        else none

/-! ## ingredient_parser.py : unit table and `normalize_unit` -/

/-- Source table `UNIT_ABBREVIATIONS` (insertion order preserved). -/
def UNIT_ABBREVIATIONS : List (String × String) :=
  [("tablespoon", "tbsp"), ("tablespoons", "tbsp"), ("tbsp", "tbsp"), ("tbs", "tbsp"),
   ("T", "tbsp"),
   ("teaspoon", "tsp"), ("teaspoons", "tsp"), ("tsp", "tsp"),
   ("t", "tsp"),
   ("cup", "cup"), ("cups", "cup"),
   ("ounce", "oz"), ("ounces", "oz"), ("oz", "oz"),
   ("pound", "lb"), ("pounds", "lb"), ("lb", "lb"), ("lbs", "lb"),
   ("gram", "g"), ("grams", "g"), ("g", "g"),
   ("kilogram", "kg"), ("kilograms", "kg"), ("kg", "kg"),
   ("milliliter", "ml"), ("milliliters", "ml"), ("ml", "ml"),
   ("liter", "l"), ("liters", "l"), ("l", "l"),
   ("clove", "clove"), ("cloves", "clove"),
   ("head", "head"), ("heads", "head"),
   ("knob", "knob"),
   ("bunch", "bunch"), ("bunches", "bunch"),
   ("sprig", "sprig"), ("sprigs", "sprig"),
   ("slice", "slice"), ("slices", "slice"),
   ("piece", "piece"), ("pieces", "piece"),
   ("can", "can"), ("cans", "can")]

/-- Python `dict` lookup on an association list with `List Char` key. -/
def lookupTable (k : List Char) : List (String × String) → Option String
  | [] => none
  | (a, b) :: rest => if a.data = k then some b else lookupTable k rest

/-- Source `_clean_item`: lowercase, strip whitespace, strip trailing
punctuation. -/
def cleanItem (cs : List Char) : List Char :=
  rstripSet [',', '.', ';', ':'] (pyStrip (lowerL cs))

/-- Source `normalize_unit`: exact-case lookup first (for `T`/`t`), then a
lowercased lookup defaulting to the lowercased input; empty input maps to the
empty string. -/
def normalize_unit (u : String) : String :=
  if u = "" then ""
  else
    match lookupTable u.data UNIT_ABBREVIATIONS with
    | some v => v
    | none =>
      match lookupTable (lowerL u.data) UNIT_ABBREVIATIONS with
      | some v => v
      | none => ⟨lowerL u.data⟩

/-- Source list `INFORMAL_UNITS` (order preserved: the parser's prefix loop
iterates it in order). -/
def INFORMAL_UNITS : List String :=
  ["a pinch", "a smidge", "a dash", "a sprinkle", "a handful", "a splash",
   "to taste", "as needed",
   "some", "a few", "a couple"]

/-- Source `is_informal_measurement`. -/
def is_informal_measurement (text : String) : Bool :=
  if text = "" then false
  else INFORMAL_UNITS.any (fun p => p.data = pyStrip (lowerL text.data))

/-- Source table `WORD_NUMBERS`. -/
def WORD_NUMBERS : List (String × String) :=
  [("one", "1"), ("two", "2"), ("three", "3"), ("four", "4"), ("five", "5"),
   ("six", "6"), ("seven", "7"), ("eight", "8"), ("nine", "9"), ("ten", "10"),
   ("eleven", "11"), ("twelve", "12")]

/-! ## ingredient_parser.py : `parse_amount` -/

/-- Regex `^\d+-\d+$` (integer range). -/
def isRangeL (cs : List Char) : Bool :=
  match spanL Char.isDigit cs with
  | (d1, rest) =>
    match rest with
    | '-' :: rest2 =>
      match spanL Char.isDigit rest2 with
      | (d2, rest3) => !d1.isEmpty && !d2.isEmpty && dollarEnd rest3
    | _ => false

/-- Regex `^\d+\.\d+$` (decimal literal). -/
def isDecimalL (cs : List Char) : Bool :=
  match spanL Char.isDigit cs with
  | (d1, rest) =>
    match rest with
    | '.' :: rest2 =>
      match spanL Char.isDigit rest2 with
      | (d2, rest3) => !d1.isEmpty && !d2.isEmpty && dollarEnd rest3
    | _ => false

/-- One attempted match of `\s*/\s*\d` directly after a digit, for the
substitution `re.sub(r'(\d)\s*/\s*(\d)', r'\1/\2', s)`: returns the second
digit and the unread rest on success. -/
def trySlash (cs : List Char) : Option (Char × List Char) :=
  match cs.dropWhile pyIsSpace with
  | '/' :: cs2 =>
    match cs2.dropWhile pyIsSpace with
    | d :: rest => if d.isDigit then some (d, rest) else none
    | [] => none
  | _ => none

/-- Left-to-right non-overlapping scan of the slash-normalizing substitution
(fuel-based; each step consumes at least one character). -/
def normSlashAux : Nat → List Char → List Char
  | 0, cs => cs
  | fuel + 1, cs =>
    match cs with
    | [] => []
    | c :: rest =>
      if c.isDigit then
        match trySlash rest with
        | some (d, rest2) => c :: '/' :: d :: normSlashAux fuel rest2
        | none => c :: normSlashAux fuel rest
      else c :: normSlashAux fuel rest

/-- Source: `re.sub(r'(\d)\s*/\s*(\d)', r'\1/\2', amount_str)`. -/
def normSlash (cs : List Char) : List Char := normSlashAux cs.length cs

/-- Regex `^(\d+)\s+(\d+/\d+)$` (mixed fraction), returning whole part,
numerator and denominator. -/
def matchMixed (cs : List Char) : Option (Nat × Nat × Nat) :=
  match spanL Char.isDigit cs with
  | (w, r1) =>
    if w.isEmpty then none
    else
      match spanL pyIsSpace r1 with
      | (sp, r2) =>
        if sp.isEmpty then none
        else
          match spanL Char.isDigit r2 with
          | (n, r3) =>
            if n.isEmpty then none
            else
              match r3 with
              | '/' :: r4 =>
                match spanL Char.isDigit r4 with
                | (d, r5) =>
                  if d.isEmpty then none
                  else if dollarEnd r5 then some (charsToNat w, charsToNat n, charsToNat d)
                  else none
              | _ => none

/-- Regex `^(\d+/\d+)$` (simple fraction), returning numerator and
denominator. -/
def matchFrac (cs : List Char) : Option (Nat × Nat) :=
  match spanL Char.isDigit cs with
  | (n, r1) =>
    if n.isEmpty then none
    else
      match r1 with
      | '/' :: r2 =>
        match spanL Char.isDigit r2 with
        | (d, r3) =>
          if d.isEmpty then none
          else if dollarEnd r3 then some (charsToNat n, charsToNat d)
          else none
      | _ => none

/-- Regex `^(\d+)$` (bare integer), returning the digit group verbatim. -/
def matchWholeL (cs : List Char) : Option (List Char) :=
  match spanL Char.isDigit cs with
  | (d, r) => if !d.isEmpty && dollarEnd r then some d else none

/-- Source `_format_decimal`: integral values render as a bare integer,
otherwise two decimals with trailing zeros and point stripped. -/
def formatDecimalL (q : Q) : List Char :=
  if q.den = 1 then intToChars q.num
  else rstripSet ['.'] (rstripSet ['0'] (fixed2 q))

/-- Source `parse_amount`, on character lists.  The `Except` models the
`ZeroDivisionError` raised by `fractions.Fraction("n/0")`. -/
def parseAmountL (cs0 : List Char) : Except String (List Char) :=
  if cs0 = [] then .ok ['1']
  else
    let s := pyStrip cs0
    match lookupTable (lowerL s) WORD_NUMBERS with
    | some v => .ok v.data
    | none =>
      if isRangeL s then .ok s
      else if isDecimalL s then .ok s
      else
        let n := normSlash s
        match matchMixed n with
        | some (w, num, den) =>
          if den = 0 then .error "ZeroDivisionError"
          else .ok (formatDecimalL (Q.ofNat w + Q.ofNat num / Q.ofNat den))
        | none =>
          match matchFrac n with
          | some (num, den) =>
            if den = 0 then .error "ZeroDivisionError"
            else .ok (formatDecimalL (Q.ofNat num / Q.ofNat den))
          | none =>
            match matchWholeL n with
            | some ds => .ok ds
            | none => .ok ['1']

/-- Source `parse_amount` on strings. -/
def parse_amount (s : String) : Except String String :=
  (parseAmountL s.data).map String.mk

/-! ## ingredient_parser.py : `parse_ingredient` -/

/-- Ingredient dict: one `Option` field per key (`none` = key absent). -/
structure Ingredient where
  amount : Option String := none
  unit : Option String := none
  item : Option String := none
  inferred : Option Bool := none
deriving DecidableEq

/-- Source set `KNOWN_UNITS = set(UNIT_ABBREVIATIONS.keys()) | {"knob", "pinch", "dash", "splash"}`. -/
def KNOWN_UNITS : List String :=
  UNIT_ABBREVIATIONS.map (fun p => p.1) ++ ["knob", "pinch", "dash", "splash"]

/-- Regex class `[\d/.\s-]` used by the standard-format amount group. -/
def isAmtClass (c : Char) : Bool :=
  c.isDigit || c = '/' || c = '.' || pyIsSpace c || c = '-'

/-- Regex class `[\d/\s]` used by the comma-format quantity test. -/
def isQtyClass (c : Char) : Bool := c.isDigit || c = '/' || pyIsSpace c

/-- Regex class `\w` (ASCII word characters). -/
def isWordChar (c : Char) : Bool := c.isAlphanum || c = '_'

/-- Regex `^[\d/\s]+\s*\w*$`: a nonempty run of digits, slashes and spaces,
then an optional word.  After the greedy class run no whitespace remains for
the middle `\s*`, and shrinking the first run cannot rescue a failed match, so
the greedy decomposition is exact. -/
def looksLikeQty (cs : List Char) : Bool :=
  match spanL isQtyClass cs with
  | (run, rest) => !run.isEmpty && dollarEnd (rest.dropWhile isWordChar)

/-- Python `text.rsplit(", ", 1)`: split at the rightmost occurrence of the
two-character separator; `none` when the separator does not occur. -/
def rsplitCS : List Char → Option (List Char × List Char)
  | [] => none
  | c :: rest =>
    match rsplitCS rest with
    | some (h, t) => some (c :: h, t)
    | none =>
      if c = ',' && rest.head? = some ' ' then some ([], rest.tail)
      else none

/-- Source `_starts_with_informal`. -/
def startsWithInformalL (cs : List Char) : Bool :=
  INFORMAL_UNITS.any (fun p => startsWithL p.data (pyStrip (lowerL cs)))

/-- Exact-equality informal lookup used by `_parse_quantity_unit`. -/
def exactInformal (csLower : List Char) : Option String :=
  INFORMAL_UNITS.find? (fun p => p.data = csLower)

/-- First informal phrase that is a prefix of the lowered text, in the order
of `INFORMAL_UNITS` (the parser's prefix loop). -/
def firstInformalPrefix (csLower : List Char) : Option String :=
  INFORMAL_UNITS.find? (fun p => startsWithL p.data csLower)

/-- Source `_parse_quantity_unit`: quantity and unit of a comma tail.  The
regex `^([\d/.\s-]+)\s*(.*)$` requires a nonempty leading class run; `(.*)$`
fails only on an interior newline, in which case the source falls back to
`{"amount": "1", "unit": "whole"}`. -/
def parseQtyUnitL (cs0 : List Char) : Except String (String × String) :=
  let t := pyStrip cs0
  match exactInformal (lowerL t) with
  | some inf => .ok ("1", inf)
  | none =>
    match spanL isAmtClass t with
    | (g1, rest) =>
      if g1.isEmpty then .ok ("1", "whole")
      else
        match dotStarDollar rest with
        | none => .ok ("1", "whole")
        | some rem =>
          match parseAmountL (pyStrip g1) with
          | .error e => .error e
          | .ok a =>
            let up := pyStrip rem
            .ok (⟨a⟩, if up.isEmpty then "whole" else normalize_unit ⟨up⟩)

/-- Quote characters of the inch-notation substitution
`re.sub(r'(\d+)\s*["\'“”]', r'\1 ', text)`. -/
def isQuoteChar (c : Char) : Bool :=
  c = '"' || c = '\'' || c = Char.ofNat 0x201c || c = Char.ofNat 0x201d

/-- Left-to-right non-overlapping scan of the inch-notation substitution
(fuel-based).  When the quote test fails after a maximal digit run, no match
can start inside that run either, so the whole run is emitted. -/
def inchSubAux : Nat → List Char → List Char
  | 0, cs => cs
  | fuel + 1, cs =>
    match cs with
    | [] => []
    | c :: rest =>
      if c.isDigit then
        match spanL Char.isDigit (c :: rest) with
        | (ds, r1) =>
          match r1.dropWhile pyIsSpace with
          | q :: r3 =>
            if isQuoteChar q then ds ++ ' ' :: inchSubAux fuel r3
            else ds ++ inchSubAux fuel r1
          | [] => ds ++ inchSubAux fuel r1
      else c :: inchSubAux fuel rest

/-- Source: `re.sub(r'(\d+)\s*["\'“”]', r'\1 ', text)`. -/
def inchSub (cs : List Char) : List Char := inchSubAux cs.length cs

/-- Python `s.split(None, 1)` on a string with no leading whitespace: the
first word and, when present, the rest with its leading whitespace removed. -/
def splitOnce (cs : List Char) : List Char × Option (List Char) :=
  let w := cs.takeWhile (fun c => !pyIsSpace c)
  let rest := (cs.dropWhile (fun c => !pyIsSpace c)).dropWhile pyIsSpace
  (w, if rest.isEmpty then none else some rest)

/-- Source `_parse_standard_format`: inch-notation cleanup, leading amount
class run, optional unit word, item. -/
def parseStandardL (text0 : List Char) : Except String Ingredient :=
  let text := inchSub text0
  let t := pyStrip text
  match spanL isAmtClass t with
  | (ap, rest) =>
    match dotStarDollar rest with
    | none => .ok ⟨some "1", some "whole", some ⟨cleanItem text⟩, none⟩
    | some rem0 =>
      let amountPart := pyStrip ap
      let amountE : Except String (List Char) :=
        if amountPart.isEmpty then .ok ['1'] else parseAmountL amountPart
      match amountE with
      | .error e => .error e
      | .ok amount =>
        let remainder := pyStrip rem0
        if remainder.isEmpty then .ok ⟨some ⟨amount⟩, some "whole", some "", none⟩
        else
          match splitOnce remainder with
          | (w1, restW) =>
            let fw := lowerL w1
            if KNOWN_UNITS.any (fun u => u.data = fw)
                || (lookupTable fw UNIT_ABBREVIATIONS).isSome then
              .ok ⟨some ⟨amount⟩, some (normalize_unit ⟨fw⟩),
                   some ⟨cleanItem (restW.getD [])⟩, none⟩
            else
              .ok ⟨some ⟨amount⟩, some "whole", some ⟨cleanItem remainder⟩, none⟩

/-- Informal-prefix, trailing `"to taste"` and standard-format strategies of
`parse_ingredient` (the branches after the comma strategy). -/
def restIngredient (text : List Char) : Except String Ingredient :=
  let textLower := lowerL text
  match firstInformalPrefix textLower with
  | some inf =>
    let remainder := pyStrip (text.drop inf.data.length)
    .ok ⟨some "1", some inf,
         some (if remainder.isEmpty then "" else ⟨cleanItem remainder⟩), none⟩
  | none =>
    if endsWithL " to taste".data textLower then
      .ok ⟨some "1", some "to taste",
           some ⟨cleanItem (pyStrip (text.take (text.length - 9)))⟩, none⟩
    else parseStandardL text

/-- Source `parse_ingredient`, on character lists. -/
def parseIngredientL (cs0 : List Char) : Except String Ingredient :=
  if cs0.isEmpty then .ok ⟨some "1", some "whole", some "", none⟩
  else
    let text := pyStrip cs0
    match rsplitCS text with
    | some (head, tail) =>
      if looksLikeQty tail || startsWithInformalL tail then
        match parseQtyUnitL tail with
        | .error e => .error e
        | .ok (a, u) => .ok ⟨some a, some u, some ⟨cleanItem head⟩, none⟩
      else restIngredient text
    | none => restIngredient text

/-- Source `parse_ingredient` on strings. -/
def parse_ingredient (s : String) : Except String Ingredient :=
  parseIngredientL s.data

/-! ## ingredient_aggregator.py : unit families and conversion -/

/-- Source `VOLUME_UNITS` (teaspoon equivalents; the float literals 0.2029 and
202.9 are modelled as exact decimal rationals). -/
def VOLUME_UNITS : List (String × Q) :=
  [("tsp", ⟨1, 1⟩), ("tbsp", ⟨3, 1⟩), ("cup", ⟨48, 1⟩),
   ("ml", ⟨2029, 10000⟩), ("l", ⟨2029, 10⟩)]

/-- Source `WEIGHT_UNITS` (ounce equivalents, exact decimal rationals). -/
def WEIGHT_UNITS : List (String × Q) :=
  [("oz", ⟨1, 1⟩), ("lb", ⟨16, 1⟩), ("g", ⟨17637, 500000⟩), ("kg", ⟨17637, 500⟩)]

/-- Source `COUNT_UNITS`. -/
def COUNT_UNITS : List String :=
  ["clove", "cloves", "slice", "slices", "piece", "pieces", "bunch", "bunches",
   "head", "heads", "can", "cans", "package", "packages", "sprig", "sprigs",
   "whole"]

/-- Lookup in a factor table with a lowered `List Char` key. -/
def lookupQ (k : List Char) : List (String × Q) → Option Q
  | [] => none
  | (a, b) :: rest => if a.data = k then some b else lookupQ k rest

/-- Source `normalize_item_name`: lowercase and strip for grouping. -/
def normalize_item_name (item : String) : String :=
  if item = "" then "" else ⟨pyStrip (lowerL item.data)⟩

/-- Source `get_unit_family`. -/
def get_unit_family (unit : String) : String :=
  if unit = "" then "other"
  else
    let ul := lowerL unit.data
    if (lookupQ ul VOLUME_UNITS).isSome then "volume"
    else if (lookupQ ul WEIGHT_UNITS).isSome then "weight"
    else if COUNT_UNITS.any (fun u => u.data = ul) then "count"
    else "other"

/-- Number group `\d+(?:\.\d+)?` of the range regex, with its exact value. -/
def matchNumQ (cs : List Char) : Option (Q × List Char) :=
  match spanL Char.isDigit cs with
  | (d1, r) =>
    if d1.isEmpty then none
    else
      match r with
      | '.' :: r2 =>
        match spanL Char.isDigit r2 with
        | (d2, r3) =>
          if d2.isEmpty then some (Q.ofNat (charsToNat d1), r)
          else some (Q.ofNat (charsToNat d1) + Q.ofNat (charsToNat d2) / Q.pow10 d2.length, r3)
      | _ => some (Q.ofNat (charsToNat d1), r)

/-- Regex `^(\d+(?:\.\d+)?)\s*-\s*(\d+(?:\.\d+)?)$` of
`parse_amount_to_float` (a numeric range), with both endpoint values. -/
def rangeMatchQ (cs : List Char) : Option (Q × Q) :=
  match matchNumQ cs with
  | none => none
  | some (lo, r1) =>
    match (r1.dropWhile pyIsSpace) with
    | '-' :: r2 =>
      match matchNumQ (r2.dropWhile pyIsSpace) with
      | none => none
      | some (hi, r3) => if dollarEnd r3 then some (lo, hi) else none
    | _ => none

/-- Source `parse_amount_to_float`: `None`/empty give `none`, a range gives
its midpoint, otherwise Python `float(...)` (values are always strings in the
modelled records, so the `isinstance(amount, (int, float))` branch is not
reachable here). -/
def parse_amount_to_float (amount : Option String) : Option Q :=
  match amount with
  | none => none
  | some s =>
    let t := pyStrip s.data
    if t.isEmpty then none
    else
      match rangeMatchQ t with
      | some (lo, hi) => some ((lo + hi) / Q.ofNat 2)
      | none => pyFloat t

/-- Source `convert_to_base_unit`. -/
def convert_to_base_unit (amount : Q) (unit : String) (family : String) : Q :=
  let ul := lowerL unit.data
  if family = "volume" then
    match lookupQ ul VOLUME_UNITS with
    | some f => amount * f
    | none => amount
  else if family = "weight" then
    match lookupQ ul WEIGHT_UNITS with
    | some f => amount * f
    | none => amount
  else amount

/-- Source `convert_from_base_unit`. -/
def convert_from_base_unit (amount : Q) (targetUnit : String) (family : String) : Q :=
  let ul := lowerL targetUnit.data
  if family = "volume" then
    match lookupQ ul VOLUME_UNITS with
    | some f => amount / f
    | none => amount
  else if family = "weight" then
    match lookupQ ul WEIGHT_UNITS with
    | some f => amount / f
    | none => amount
  else amount

/-- Counting dict `unit_counts` built in first-encounter order. -/
def bumpCount : List (List Char × Nat) → List Char → List (List Char × Nat)
  | [], k => [(k, 1)]
  | (a, n) :: rest, k =>
    if a = k then (a, n + 1) :: rest else (a, n) :: bumpCount rest k

/-- Python `max(unit_counts, key=unit_counts.get)`: the first key with the
maximal count, in dict insertion order (Python's `max` keeps the earlier
element on ties). -/
def maxByCountAux (best : List Char) (bn : Nat) : List (List Char × Nat) → List Char
  | [] => best
  | (k, n) :: rest =>
    if bn < n then maxByCountAux k n rest else maxByCountAux best bn rest

/-- Source `choose_best_output_unit`. -/
def choose_best_output_unit (_totalBase : Q) (family : String)
    (originalUnits : List String) : String :=
  match originalUnits with
  | [] =>
    if family = "volume" then "tsp"
    else if family = "weight" then "oz"
    else "whole"
  | u :: us =>
    let counts := (u :: us).foldl (fun acc v => bumpCount acc (lowerL v.data)) []
    match counts with
    | [] => "whole"
    | (k, n) :: rest => ⟨maxByCountAux k n rest⟩

/-- Source `format_amount`: integral values render bare, otherwise
`round(x, 2)` then two decimals with trailing zeros and point stripped. -/
def format_amount (q : Q) : String :=
  if q.den = 1 then ⟨intToChars q.num⟩
  else
    let rounded : Q := Q.div (Q.ofInt (rhe (q * Q.ofNat 100))) (Q.ofNat 100)
    if rounded.den = 1 then ⟨intToChars rounded.num⟩
    else ⟨rstripSet ['.'] (rstripSet ['0'] (fixed2 rounded))⟩

/-! ## ingredient_aggregator.py : grouping and summation -/

/-- Source `sum_unit_family`: `none` for an empty group (the source's empty
dict, which is falsy), the single record itself for a singleton, otherwise
the converted running total with the most frequent original unit. -/
def sum_unit_family (items : List Ingredient) (family : String) : Option Ingredient :=
  match items with
  | [] => none
  | [i] => some i
  | i0 :: _ :: _ =>
    let r := items.foldl
      (fun (acc : Q × List String) it =>
        match parse_amount_to_float it.amount with
        | some amt =>
          let u := it.unit.getD ""
          (acc.1 + convert_to_base_unit amt u family,
           if u ≠ "" then acc.2 ++ [u] else acc.2)
        | none => acc)
      (⟨0, 1⟩, [])
    let outputUnit := choose_best_output_unit r.1 family r.2
    some ⟨some (format_amount (convert_from_base_unit r.1 outputUnit family)),
          some outputUnit, some (i0.item.getD ""), none⟩

/-- The five family buckets of `combine_ingredient_group` (a dict with the
fixed literal keys volume, weight, count, other, no_amount). -/
structure Buckets where
  volume : List Ingredient
  weight : List Ingredient
  count : List Ingredient
  other : List Ingredient
  noAmt : List Ingredient
deriving DecidableEq

/-- One step of the routing loop of `combine_ingredient_group`. -/
def addBucket (b : Buckets) (i : Ingredient) : Buckets :=
  if (parse_amount_to_float i.amount).isNone then { b with noAmt := b.noAmt ++ [i] }
  else
    let fam := get_unit_family (i.unit.getD "")
    if fam = "volume" then { b with volume := b.volume ++ [i] }
    else if fam = "weight" then { b with weight := b.weight ++ [i] }
    else if fam = "count" then { b with count := b.count ++ [i] }
    else { b with other := b.other ++ [i] }

/-- Bucket routing of `combine_ingredient_group`. -/
def buildBuckets (items : List Ingredient) : Buckets :=
  items.foldl addBucket ⟨[], [], [], [], []⟩

/-- The four numeric-family buckets (everything except `no_amount`). -/
def famsOf (b : Buckets) : List Ingredient :=
  b.volume ++ b.weight ++ b.count ++ b.other

/-- Append to an insertion-ordered dict of lists (`by_unit`, `groups`). -/
def addGroup (gs : List (List Char × List Ingredient)) (k : List Char)
    (r : Ingredient) : List (List Char × List Ingredient) :=
  match gs with
  | [] => [(k, [r])]
  | (a, rs) :: rest =>
    if a = k then (a, rs ++ [r]) :: rest else (a, rs) :: addGroup rest k r

/-- Results for the volume, weight and count families (the `else` arm of the
source loop): `sum_unit_family`, appended when truthy. -/
def famRes (family : String) (group : List Ingredient) : List Ingredient :=
  match sum_unit_family group family with
  | some s => [s]
  | none => []

/-- Results for the `other` family: sub-group by exact lowered unit string in
first-encounter order; singletons pass through, larger sub-groups sum the
parseable amounts directly. -/
def otherRes (group : List Ingredient) : List Ingredient :=
  let byUnit := group.foldl (fun acc it => addGroup acc (lowerL (it.unit.getD "").data) it) []
  byUnit.foldl
    (fun acc g =>
      match g.2 with
      | [] => acc
      | [i] => acc ++ [i]
      | i0 :: _ :: _ =>
        let total := g.2.foldl
          (fun (t : Q) it =>
            match parse_amount_to_float it.amount with
            | some amt => t + amt
            | none => t)
          ⟨0, 1⟩
        acc ++ [⟨some (format_amount total), some (i0.unit.getD ""),
                 some (i0.item.getD ""), none⟩])
    []

/-- Results for the `no_amount` family: the first record, unchanged. -/
def noAmtRes (group : List Ingredient) : List Ingredient :=
  match group with
  | [] => []
  | h :: _ => [h]

/-- Source `combine_ingredient_group`: route into the five buckets, then emit
per-family results in the dict's key order. -/
def combine_ingredient_group (items : List Ingredient) : List Ingredient :=
  match items with
  | [] => []
  | _ =>
    let b := buildBuckets items
    famRes "volume" b.volume ++ famRes "weight" b.weight ++ famRes "count" b.count
      ++ otherRes b.other ++ noAmtRes b.noAmt

/-- One step of the grouping loop of `aggregate_ingredients`: records whose
normalized item key is empty are skipped. -/
def groupStep (gs : List (List Char × List Ingredient)) (ing : Ingredient) :
    List (List Char × List Ingredient) :=
  let key := (normalize_item_name (ing.item.getD "")).data
  if key.isEmpty then gs else addGroup gs key ing

/-- Grouping loop of `aggregate_ingredients`. -/
def buildGroups (l : List Ingredient) : List (List Char × List Ingredient) :=
  l.foldl groupStep []

/-- Sort key of the final `results.sort`. -/
def sortKey (i : Ingredient) : List Char :=
  (normalize_item_name (i.item.getD "")).data

/-- Lexicographic comparison of character lists by code point (Python string
`<=` on the sort keys). -/
def charListLe : List Char → List Char → Bool
  | [], _ => true
  | _ :: _, [] => false
  | a :: as, b :: bs =>
    if a.toNat < b.toNat then true
    else if b.toNat < a.toNat then false
    else charListLe as bs

/-- Ordering relation of the final sort. -/
def aggLe (a b : Ingredient) : Prop := charListLe (sortKey a) (sortKey b) = true

instance : DecidableRel aggLe := fun _ _ => inferInstanceAs (Decidable (_ = true))

/-- Source `aggregate_ingredients`: group by normalized item name, combine
each group, and sort the results by normalized item name.  Python's
`list.sort` is a stable sort by this key, which coincides with insertion
sort under the same total preorder. -/
def aggregate_ingredients (l : List Ingredient) : List Ingredient :=
  if l.isEmpty then []
  else
    let groups := buildGroups l
    let results := groups.foldl (fun acc g => acc ++ combine_ingredient_group g.2) []
    List.insertionSort aggLe results

/-! ## ingredient_validator.py -/

/-- Source `UNIT_WORDS`: unit words that must not appear inside an amount. -/
def UNIT_WORDS : List String :=
  ["cup", "cups", "tbsp", "tablespoon", "tablespoons",
   "tsp", "teaspoon", "teaspoons", "gram", "grams", "g",
   "oz", "ounce", "ounces", "lb", "pound", "pounds",
   "ml", "milliliter", "milliliters", "liter", "liters", "l",
   "kg", "kilogram", "kilograms"]

/-- Source `MALFORMED_UNITS`: non-standard AI-generated unit tokens. -/
def MALFORMED_UNITS : List String :=
  ["half_cup", "quarter_cup", "third_cup", "three_quarters_cup",
   "half_teaspoon", "quarter_teaspoon",
   "half_tablespoon", "quarter_tablespoon",
   "two_tablespoons", "three_tablespoons"]

/-- Python `str.split()` (split on whitespace runs, no empty tokens). -/
def splitWSAux : Nat → List Char → List (List Char)
  | 0, _ => []
  | fuel + 1, cs =>
    match cs.dropWhile pyIsSpace with
    | [] => []
    | c :: rest =>
      ((c :: rest).takeWhile (fun x => !pyIsSpace x))
        :: splitWSAux fuel ((c :: rest).dropWhile (fun x => !pyIsSpace x))

/-- Python `str.split()`. -/
def splitWS (cs : List Char) : List (List Char) := splitWSAux cs.length cs

/-- Source `AMOUNT_WITH_UNIT_PATTERN`:
`^\d+(?:\.\d+)?\s*(g|kg|ml|l|oz|lb)$` with `re.IGNORECASE` (the inputs are
already lowercased at every call site). -/
def amountWithUnitMatch (cs : List Char) : Bool :=
  match matchNumQ cs with
  | none => false
  | some (_, r1) =>
    let r2 := r1.dropWhile pyIsSpace
    ["g", "kg", "ml", "l", "oz", "lb"].any
      (fun u => startsWithL u.data r2 && dollarEnd (r2.drop u.data.length))

/-- Membership of a word of the amount in `UNIT_WORDS`
(`any(word in amount.split() for word in UNIT_WORDS)`). -/
def amountHasUnitWord (amountLower : List Char) : Bool :=
  (splitWS amountLower).any (fun w => UNIT_WORDS.any (fun uw => uw.data = w))

/-- Source `is_malformed_ingredient`, checks in source order. -/
def is_malformed_ingredient (ing : Ingredient) : Bool :=
  let amount := pyStrip (lowerL (ing.amount.getD "").data)
  let unit := pyStrip (lowerL (ing.unit.getD "").data)
  let item := pyStrip (ing.item.getD "").data
  if item.isEmpty then true
  else if amount = "none".data || amount = "null".data || amount = [] then true
  else
    let hasUnitWord := amountHasUnitWord amount
    if amountWithUnitMatch amount then true
    else if (unit = "none".data || unit = "null".data || unit = []) && hasUnitWord then true
    else if hasUnitWord then true
    else if unit = "none".data || unit = "null".data then true
    else if MALFORMED_UNITS.any (fun m => m.data = unit) then true
    else false

/-- The `combined` free-text string rebuilt by `repair_ingredient` from the
non-degenerate parts of the record. -/
def repairCombined (ing : Ingredient) : List Char :=
  let amount := pyStrip (ing.amount.getD "").data
  let unit := pyStrip (ing.unit.getD "").data
  let item := pyStrip (ing.item.getD "").data
  let amountLower := lowerL amount
  let amountDegenerate :=
    amountLower = "none".data || amountLower = "null".data || amountLower = []
  let parts1 := if amountDegenerate then [] else [amount]
  let amountHasEmbeddedUnit :=
    if amountDegenerate then false
    else amountWithUnitMatch amountLower || amountHasUnitWord amountLower
  let unitLower := lowerL unit
  let unitDegenerate :=
    unitLower = "none".data || unitLower = "null".data || unitLower = []
  let unitIsBad :=
    unitDegenerate || MALFORMED_UNITS.any (fun m => m.data = unitLower)
      || amountHasEmbeddedUnit
  let parts2 :=
    if !unitIsBad then parts1 ++ [unit]
    else if amountDegenerate
        && !(unitLower = "none".data || unitLower = "null".data || unitLower = []) then
      if !(MALFORMED_UNITS.any (fun m => m.data = unitLower)) then parts1 ++ [unit]
      else parts1
    else parts1
  let parts3 := if item.isEmpty then parts2 else parts2 ++ [item]
  pyStrip (joinSp parts3)

/-- Source `repair_ingredient`: rebuild a free-text string and re-parse it,
carrying the `inferred` flag forward; an empty recombination returns the
record unchanged. -/
def repair_ingredient (ing : Ingredient) : Except String Ingredient :=
  let combined := repairCombined ing
  if combined.isEmpty then .ok ing
  else
    match parseIngredientL combined with
    | .error e => .error e
    | .ok parsed => .ok { parsed with inferred := some (ing.inferred.getD false) }

/-- Loop body of `validate_ingredients`: non-dict entries (modelled as
`none`) are skipped, malformed records are repaired, the rest pass through. -/
def validateAux : List (Option Ingredient) → Except String (List Ingredient)
  | [] => .ok []
  | none :: rest => validateAux rest
  | some ing :: rest =>
    let nextE : Except String Ingredient :=
      if is_malformed_ingredient ing then repair_ingredient ing else .ok ing
    match nextE with
    | .error e => .error e
    | .ok r =>
      match validateAux rest with
      | .error e => .error e
      | .ok rs => .ok (r :: rs)

/-- Source `validate_ingredients` (the `verbose` flag only prints). -/
def validate_ingredients (ingredients : List (Option Ingredient))
    (_verbose : Bool) : Except String (List Ingredient) :=
  if ingredients.isEmpty then .ok [] else validateAux ingredients

/-! ## ingredient_aggregator.py : `format_ingredient` -/

/-- Source `format_ingredient`: display string with `1`-respecting unit
pluralization; the `float(amount)` failure path (`ValueError`) leaves the
unit unpluralized. -/
def format_ingredient (ing : Ingredient) : String :=
  let amount := ing.amount.getD ""
  let unit := ing.unit.getD ""
  let item := ing.item.getD ""
  if amount = "" then
    if unit ≠ "" && unit ≠ "whole" then ⟨pyStrip (unit.data ++ ' ' :: item.data)⟩
    else ⟨pyStrip item.data⟩
  else
    let unitF :=
      match pyFloat amount.data with
      | some v =>
        if (⟨1, 1⟩ : Q).ltB v && !endsWithL ['s'] unit.data
            && !(["tsp", "tbsp", "oz", "lb", "g", "kg", "ml", "l"].any (fun u => u = unit)) then
          unit ++ "s"
        else unit
      | none => unit
    let parts := [amount.data]
      ++ (if unit ≠ "" && unit ≠ "whole" then [unitF.data] else [])
      ++ (if item ≠ "" then [item.data] else [])
    ⟨joinSp parts⟩

/-! ## Vocabulary for the round-trip theorem (C3)

These definitions classify the already-canonical records for which the
format/parse round-trip is proved exactly: canonical amount shapes, the unit
codes whose rendering is recognized back, and benign item text. -/

/-- Lowercase ASCII letter. -/
def lcLetter (c : Char) : Bool := 97 ≤ c.toNat && c.toNat ≤ 122

/-- Character admissible in a benign item: lowercase letter or space. -/
def itemChar (c : Char) : Bool := lcLetter c || c = ' '

/-- Benign item text: lowercase letters and spaces, trimmed at both ends. -/
def itemOk (I : List Char) : Bool :=
  I.all itemChar && I.head? != some ' ' && I.getLast? != some ' '

/-- Canonical amount shapes produced by `parse_amount`: a bare digit run, an
integer range, or a decimal literal (digit runs separated by `-` or `.`). -/
def amountShape (A : List Char) : Bool :=
  match spanL Char.isDigit A with
  | (d1, []) => !d1.isEmpty
  | (d1, '-' :: r2) => !d1.isEmpty && !r2.isEmpty && r2.all Char.isDigit
  | (d1, '.' :: r2) => !d1.isEmpty && !r2.isEmpty && r2.all Char.isDigit
  | _ => false

/-- Amount characters: digits, dot, dash. -/
def amtChar (c : Char) : Bool := c.isDigit || c = '.' || c = '-'

/-- The unit-word test of the standard-format parser. -/
def isUnitWord (w : List Char) : Bool :=
  KNOWN_UNITS.any (fun u => u.data = w) || (lookupTable w UNIT_ABBREVIATIONS).isSome

/-- Unit codes covered by the round-trip theorem: the canonical codes whose
rendering (pluralized or not) is recognized back by the parser, plus
`"whole"`.  `knob` and `bunch` are excluded: their naive pluralizations
`knobs`/`bunchs` are not in the unit table. -/
def okUnits : List String :=
  ["tsp", "tbsp", "cup", "oz", "lb", "g", "kg", "ml", "l",
   "clove", "head", "sprig", "slice", "piece", "can", "whole"]

/-! ## Helper lemmas: the only exception in the core is `ZeroDivisionError` -/

theorem parseAmountL_error_eq {cs : List Char} {e : String}
    (h : parseAmountL cs = .error e) : e = "ZeroDivisionError" := by
  unfold parseAmountL at h
  dsimp only at h
  repeat' split at h
  all_goals simp_all

theorem parseQtyUnitL_error_eq {cs : List Char} {e : String}
    (h : parseQtyUnitL cs = .error e) : e = "ZeroDivisionError" := by
  unfold parseQtyUnitL at h
  dsimp only at h
  repeat' split at h
  all_goals try simp_all
  all_goals exact parseAmountL_error_eq (by assumption)

theorem parseStandardL_error_eq {cs : List Char} {e : String}
    (h : parseStandardL cs = .error e) : e = "ZeroDivisionError" := by
  unfold parseStandardL at h
  dsimp only at h
  split at h
  next => simp at h
  next rem hrem =>
    rcases hE : (if (pyStrip (spanL isAmtClass (pyStrip (inchSub cs))).1).isEmpty = true
        then Except.ok ['1']
        else parseAmountL (pyStrip (spanL isAmtClass (pyStrip (inchSub cs))).1)) with e2 | a
    · rw [hE] at h
      simp only [Except.error.injEq] at h
      subst h
      split at hE
      · simp at hE
      · exact parseAmountL_error_eq hE
    · rw [hE] at h
      repeat' split at h
      all_goals simp_all

theorem restIngredient_error_eq {cs : List Char} {e : String}
    (h : restIngredient cs = .error e) : e = "ZeroDivisionError" := by
  unfold restIngredient at h
  dsimp only at h
  repeat' split at h
  all_goals try simp_all
  all_goals exact parseStandardL_error_eq (by assumption)

theorem parseIngredientL_error_eq {cs : List Char} {e : String}
    (h : parseIngredientL cs = .error e) : e = "ZeroDivisionError" := by
  unfold parseIngredientL at h
  dsimp only at h
  repeat' split at h
  all_goals try simp_all
  all_goals first
    | exact restIngredient_error_eq (by assumption)
    | exact parseQtyUnitL_error_eq (by assumption)

/-! ## Claim theorems -/

/-- C1: the totality claim fails on the code: `parse_amount` (and hence
`parse_ingredient`) raises `ZeroDivisionError` on the input `"1/0"`, because
the simple-fraction branch feeds the zero denominator to
`fractions.Fraction`, instead of returning the documented fallback `"1"`. -/
theorem C1_div0_exception :
    parse_amount "1/0" = .error "ZeroDivisionError"
      ∧ parse_ingredient "1/0" = .error "ZeroDivisionError" :=
  ⟨rfl, rfl⟩

/-- C2: counterexample to the range-routing claim: the amount `"3-4"` does
parse as a float (`parse_amount_to_float` resolves it to the midpoint 3.5),
so the record is routed to the volume bucket and summed (3.5 + 1 = 4.5 cups)
rather than passed through the `no_amount` bucket. -/
theorem C2_counterexample :
    parse_amount_to_float (some "3-4") = some ⟨7, 2⟩
      ∧ combine_ingredient_group
          [⟨some "3-4", some "cup", some "apples", none⟩,
           ⟨some "1", some "cup", some "apples", none⟩]
        = [⟨some "4.5", some "cup", some "apples", none⟩]
      ∧ (buildBuckets
           [⟨some "3-4", some "cup", some "apples", none⟩,
            ⟨some "1", some "cup", some "apples", none⟩]).noAmt = [] :=
  ⟨rfl, rfl, rfl⟩

/-- C3: counterexample to round-trip idempotence: the canonical record
produced by parsing `"a pinch salt"` has the multi-word informal unit
`"a pinch"`; formatting gives `"1 a pinch salt"`, which re-parses with item
`"a pinch salt"` instead of `"salt"` (and unit `"whole"` instead of the
informal phrase). -/
theorem C3_counterexample :
    parse_ingredient "a pinch salt"
        = .ok ⟨some "1", some "a pinch", some "salt", none⟩
      ∧ format_ingredient ⟨some "1", some "a pinch", some "salt", none⟩
          = "1 a pinch salt"
      ∧ parse_ingredient "1 a pinch salt"
          = .ok ⟨some "1", some "whole", some "a pinch salt", none⟩
      ∧ ("a pinch salt" : String) ≠ "salt" :=
  ⟨rfl, rfl, rfl, by simp⟩

/-- C4: counterexample to the no-empty-item claim: the record with amount
`"none"`, unit `"cup"` and the non-empty item `","` recombines to
`"cup ,"`, which re-parses to an empty item (the comma is stripped as
trailing punctuation), so a non-empty input produces an empty-item output. -/
theorem C4_counterexample :
    repair_ingredient ⟨some "none", some "cup", some ",", none⟩
        = .ok ⟨some "1", some "cup", some "", some false⟩
      ∧ ("," : String) ≠ "" :=
  ⟨rfl, by simp⟩

/-- C5: the cross-unit butter aggregation: 2 tbsp converts to 6 tsp, 0.25 cup
to 12 tsp, the base total is 18 tsp, the output unit is the most frequent
original unit with first-encounter tie-breaking (tbsp), and the total
converts back to amount `"6"` with unit `"tbsp"` in a single butter entry. -/
theorem C5_butter_cross_unit :
    convert_to_base_unit ⟨2, 1⟩ "tbsp" "volume" = ⟨6, 1⟩
      ∧ convert_to_base_unit ⟨1, 4⟩ "cup" "volume" = ⟨12, 1⟩
      ∧ choose_best_output_unit ⟨18, 1⟩ "volume" ["tbsp", "cup"] = "tbsp"
      ∧ convert_from_base_unit ⟨18, 1⟩ "tbsp" "volume" = ⟨6, 1⟩
      ∧ aggregate_ingredients
          [⟨some "2", some "tbsp", some "butter", none⟩,
           ⟨some "0.25", some "cup", some "butter", none⟩]
        = [⟨some "6", some "tbsp", some "butter", none⟩] :=
  ⟨rfl, rfl, rfl, rfl, rfl⟩

/-- C6: the validator flags `{"amount": "30 grams", "unit": "none",
"item": "sugar"}` as malformed (the amount embeds a unit word) and repairs it
to `{"amount": "30", "unit": "g", "item": "sugar"}`, with the `inferred` flag
carried forward as its default `False`. -/
theorem C6_validator_repair :
    is_malformed_ingredient ⟨some "30 grams", some "none", some "sugar", none⟩ = true
      ∧ validate_ingredients
          [some ⟨some "30 grams", some "none", some "sugar", none⟩] false
        = .ok [⟨some "30", some "g", some "sugar", some false⟩] :=
  ⟨rfl, rfl⟩

/-- C9: the amount normalization equations: fractions and mixed numbers
become decimals, word numbers become digits, ranges are preserved, empty
input defaults to `"1"`, and whitespace around a slash is normalized before
fraction matching. -/
theorem C9_amount_normalization :
    parse_amount "1/2" = .ok "0.5"
      ∧ parse_amount "1 1/2" = .ok "1.5"
      ∧ parse_amount "one" = .ok "1"
      ∧ parse_amount "3-4" = .ok "3-4"
      ∧ parse_amount "" = .ok "1"
      ∧ parse_amount "1 /2" = parse_amount "1/2" :=
  ⟨rfl, rfl, rfl, rfl, rfl, rfl⟩

/-- C8: the exact-case single-letter lookup is performed before case-folding
(`T` maps to tbsp while `t` maps to tsp), accepted surface forms map to their
canonical codes after lowercasing, unknown strings pass through lowercased
without error, and empty input returns the empty string. -/
theorem C8_normalize_unit :
    normalize_unit "T" = "tbsp"
      ∧ normalize_unit "t" = "tsp"
      ∧ normalize_unit "Tablespoons" = "tbsp"
      ∧ normalize_unit "widget" = "widget"
      ∧ normalize_unit "" = ""
      ∧ ∀ s : String, s ≠ "" →
          lookupTable s.data UNIT_ABBREVIATIONS = none →
          lookupTable (lowerL s.data) UNIT_ABBREVIATIONS = none →
          normalize_unit s = ⟨lowerL s.data⟩ := by
  refine ⟨rfl, rfl, rfl, rfl, rfl, ?_⟩
  intro s hne h1 h2
  unfold normalize_unit
  rw [if_neg hne, h1, h2]

/-- C8 witness: the universal pass-through component applied at the unknown
unit string `"widget"`. -/
theorem C8_normalize_unit_witness :
    normalize_unit "widget" = ⟨lowerL "widget".data⟩ :=
  C8_normalize_unit.2.2.2.2.2 "widget" (by simp) rfl rfl

/-- C4 (amended): every error `repair_ingredient` can return is the
`ZeroDivisionError` defect shared with `parse_ingredient`, and whenever the
recombined free-text string is empty it returns the original record
unchanged. -/
theorem C4_empty_recombination_fallback :
    (∀ ing : Ingredient, repairCombined ing = [] → repair_ingredient ing = .ok ing)
      ∧ ∀ (ing : Ingredient) (e : String),
          repair_ingredient ing = .error e → e = "ZeroDivisionError" := by
  constructor
  · intro ing hc
    simp [repair_ingredient, hc]
  · intro ing e h
    unfold repair_ingredient at h
    dsimp only at h
    split at h
    · simp at h
    · split at h
      all_goals try simp_all
      exact parseIngredientL_error_eq (by assumption)

/-- C4 witness: the fallback component applied at a record whose parts are
all degenerate, so that the recombined string is empty. -/
theorem C4_empty_recombination_fallback_witness :
    repair_ingredient ⟨some "", some "", some "", none⟩
      = .ok ⟨some "", some "", some "", none⟩ :=
  C4_empty_recombination_fallback.1 ⟨some "", some "", some "", none⟩ rfl

theorem addBucket_noAmt_of_parseable {b : Buckets} {i : Ingredient}
    (hp : ¬ (parse_amount_to_float i.amount).isNone = true) :
    (addBucket b i).noAmt = b.noAmt := by
  unfold addBucket
  rw [if_neg hp]
  dsimp only
  repeat' split
  all_goals rfl

theorem buildBuckets_go_noAmt :
    ∀ (l : List Ingredient) (b : Buckets),
      (l.foldl addBucket b).noAmt
        = b.noAmt ++ l.filter (fun i => (parse_amount_to_float i.amount).isNone) := by
  intro l
  induction l with
  | nil => intro b; simp
  | cons i t ih =>
    intro b
    simp only [List.foldl_cons, List.filter_cons]
    by_cases hp : (parse_amount_to_float i.amount).isNone = true
    · rw [ih]
      have hb : (addBucket b i).noAmt = b.noAmt ++ [i] := by
        unfold addBucket; rw [if_pos hp]
      rw [hb, hp]
      simp
    · rw [ih, addBucket_noAmt_of_parseable hp]
      simp only [Bool.not_eq_true] at hp
      rw [hp]
      simp

theorem mem_famsOf_addBucket {b : Buckets} {i x : Ingredient}
    (hx : x ∈ famsOf (addBucket b i)) :
    x ∈ famsOf b ∨ (x = i ∧ (parse_amount_to_float i.amount).isSome = true) := by
  unfold addBucket at hx
  split at hx
  · left
    simpa [famsOf] using hx
  · rename_i hp
    have hp2 : (parse_amount_to_float i.amount).isSome = true := by
      cases hq : parse_amount_to_float i.amount <;> simp_all
    dsimp only at hx
    repeat' split at hx
    all_goals
      simp only [famsOf, List.mem_append, List.mem_singleton] at hx ⊢
      tauto

theorem buildBuckets_go_parseable :
    ∀ (l : List Ingredient) (b : Buckets),
      (∀ i ∈ famsOf b, (parse_amount_to_float i.amount).isSome = true) →
      ∀ i ∈ famsOf (l.foldl addBucket b), (parse_amount_to_float i.amount).isSome = true := by
  intro l
  induction l with
  | nil => intro b hb; simpa using hb
  | cons j t ih =>
    intro b hb i hi
    refine ih (addBucket b j) ?_ i hi
    intro k hk
    rcases mem_famsOf_addBucket hk with h | ⟨rfl, hs⟩
    · exact hb k h
    · exact hs

/-- C2 (amended): a record whose amount fails to parse as a float is routed
to the `no_amount` bucket (that bucket is exactly the in-order sublist of
unparseable records), every record in the four numeric-family buckets has a
parseable amount (so an unparseable amount never enters a numeric sum), and
the first unparseable record is emitted as-is in the group output. -/
theorem C2_no_amount_routing :
    ∀ items : List Ingredient,
      (buildBuckets items).noAmt
          = items.filter (fun i => (parse_amount_to_float i.amount).isNone)
        ∧ (∀ i ∈ famsOf (buildBuckets items),
            (parse_amount_to_float i.amount).isSome = true)
        ∧ ∀ h : Ingredient,
            (items.filter (fun i => (parse_amount_to_float i.amount).isNone)).head?
                = some h →
            h ∈ combine_ingredient_group items := by
  intro items
  have hno : (buildBuckets items).noAmt
      = items.filter (fun i => (parse_amount_to_float i.amount).isNone) := by
    unfold buildBuckets
    rw [buildBuckets_go_noAmt]
    rfl
  refine ⟨hno, ?_, ?_⟩
  · exact buildBuckets_go_parseable items ⟨[], [], [], [], []⟩ (by simp [famsOf])
  · intro h hh
    cases items with
    | nil => simp at hh
    | cons j t =>
      unfold combine_ingredient_group
      simp only [List.mem_append]
      right
      rw [hno]
      revert hh
      cases hf : (j :: t).filter (fun i => (parse_amount_to_float i.amount).isNone) with
      | nil => intro hh; simp at hh
      | cons a u =>
        intro hh
        simp only [List.head?_cons, Option.some.injEq] at hh
        subst hh
        simp [noAmtRes]

/-- C2 witness: the routing theorem applied to a concrete two-record group
whose first record has the unparseable amount `"a few"`. -/
theorem C2_no_amount_routing_witness :
    (⟨some "a few", some "whole", some "mint", none⟩ : Ingredient)
      ∈ combine_ingredient_group
          [⟨some "a few", some "whole", some "mint", none⟩,
           ⟨some "1", some "cup", some "mint", none⟩] :=
  (C2_no_amount_routing _).2.2 _ rfl

theorem buildGroups_go_filter :
    ∀ (l : List Ingredient) (gs : List (List Char × List Ingredient)),
      l.foldl groupStep gs
        = (l.filter
            (fun r => !(normalize_item_name (r.item.getD "")).data.isEmpty)).foldl
            groupStep gs := by
  intro l
  induction l with
  | nil => intro gs; rfl
  | cons i t ih =>
    intro gs
    simp only [List.foldl_cons, List.filter_cons]
    by_cases hk : ((normalize_item_name (i.item.getD "")).data).isEmpty = true
    · have hstep : groupStep gs i = gs := by
        unfold groupStep
        rw [if_pos hk]
      rw [hstep, hk]
      simpa using ih gs
    · simp only [Bool.not_eq_true] at hk
      rw [hk]
      simpa using ih (groupStep gs i)

/-- C10: records whose item normalizes (lowercases and trims) to the empty
string contribute nothing: aggregation of any list equals aggregation of the
list with all such records removed, so they join no group and appear in no
output entry. -/
theorem C10_empty_items_omitted :
    ∀ l : List Ingredient,
      aggregate_ingredients l
        = aggregate_ingredients
            (l.filter (fun r => !(normalize_item_name (r.item.getD "")).data.isEmpty)) := by
  intro l
  have hg : buildGroups l
      = buildGroups
          (l.filter (fun r => !(normalize_item_name (r.item.getD "")).data.isEmpty)) := by
    unfold buildGroups
    exact buildGroups_go_filter l []
  unfold aggregate_ingredients
  by_cases h1 : l.isEmpty = true
  · have : l = [] := by cases l <;> simp_all
    subst this
    rfl
  · rw [if_neg h1]
    by_cases h2 :
        (l.filter (fun r => !(normalize_item_name (r.item.getD "")).data.isEmpty)).isEmpty = true
    · rw [if_pos h2]
      have hf :
          (l.filter (fun r => !(normalize_item_name (r.item.getD "")).data.isEmpty)) = [] := by
        cases hc : l.filter (fun r => !(normalize_item_name (r.item.getD "")).data.isEmpty) <;>
          simp_all
      rw [hg, hf]
      rfl
    · rw [if_neg h2, hg]

theorem charListLe_total :
    ∀ a b : List Char, charListLe a b = true ∨ charListLe b a = true := by
  intro a
  induction a with
  | nil => intro b; left; rfl
  | cons x xs ih =>
    intro b
    cases b with
    | nil => right; rfl
    | cons y ys =>
      simp only [charListLe]
      rcases ih ys with h | h <;> split_ifs <;> simp_all

theorem charListLe_trans :
    ∀ a b c : List Char,
      charListLe a b = true → charListLe b c = true → charListLe a c = true := by
  intro a
  induction a with
  | nil => intro b c _ _; rfl
  | cons x xs ih =>
    intro b c hab hbc
    cases b with
    | nil => simp [charListLe] at hab
    | cons y ys =>
      cases c with
      | nil => simp [charListLe] at hbc
      | cons z zs =>
        simp only [charListLe] at hab hbc ⊢
        split_ifs at hab hbc ⊢ <;>
          first
            | rfl
            | omega
            | exact ih ys zs hab hbc

instance : IsTotal Ingredient aggLe :=
  ⟨fun a b => charListLe_total (sortKey a) (sortKey b)⟩

instance : IsTrans Ingredient aggLe :=
  ⟨fun a b c hab hbc => charListLe_trans (sortKey a) (sortKey b) (sortKey c) hab hbc⟩

/-- C7: the output of `aggregate_ingredients` is always sorted ascending by
normalized item name (the relation `aggLe` compares the lowercased, trimmed
item keys lexicographically), for every input list and hence regardless of
the order of the input records. -/
theorem C7_output_sorted :
    ∀ l : List Ingredient, List.Sorted aggLe (aggregate_ingredients l) := by
  intro l
  unfold aggregate_ingredients
  split
  · exact List.sorted_nil
  · exact List.sorted_insertionSort aggLe _

/-! ## Groundwork for the round-trip theorem: character facts -/

theorem charLe_iff {a b : Char} : a ≤ b ↔ a.toNat ≤ b.toNat := by
  rw [Char.le_def, UInt32.le_def, BitVec.le_def]
  rfl

theorem charEq_iff {a b : Char} : a = b ↔ a.toNat = b.toNat := by
  constructor
  · intro h; rw [h]
  · intro h
    apply Char.ext
    apply UInt32.ext
    exact h

theorem isDigit_iff {c : Char} : c.isDigit = true ↔ 48 ≤ c.toNat ∧ c.toNat ≤ 57 := by
  simp only [Char.isDigit, Bool.and_eq_true, decide_eq_true_eq, charLe_iff]
  exact Iff.rfl

theorem pyIsSpace_iff {c : Char} :
    pyIsSpace c = true ↔
      c.toNat = 32 ∨ c.toNat = 9 ∨ c.toNat = 10 ∨ c.toNat = 13
        ∨ c.toNat = 11 ∨ c.toNat = 12 := by
  have e1 : (' ' : Char).toNat = 32 := rfl
  have e2 : ('\t' : Char).toNat = 9 := rfl
  have e3 : ('\n' : Char).toNat = 10 := rfl
  have e4 : ('\r' : Char).toNat = 13 := rfl
  have e5 : ('\x0b' : Char).toNat = 11 := rfl
  have e6 : ('\x0c' : Char).toNat = 12 := rfl
  simp only [pyIsSpace, Bool.or_eq_true, decide_eq_true_eq, charEq_iff,
    e1, e2, e3, e4, e5, e6]
  tauto

theorem lcLetter_iff {c : Char} : lcLetter c = true ↔ 97 ≤ c.toNat ∧ c.toNat ≤ 122 := by
  simp only [lcLetter, Bool.and_eq_true, decide_eq_true_eq]

theorem amtChar_iff {c : Char} :
    amtChar c = true ↔ (48 ≤ c.toNat ∧ c.toNat ≤ 57) ∨ c.toNat = 46 ∨ c.toNat = 45 := by
  have e1 : ('.' : Char).toNat = 46 := rfl
  have e2 : ('-' : Char).toNat = 45 := rfl
  simp only [amtChar, Bool.or_eq_true, decide_eq_true_eq, charEq_iff, isDigit_iff,
    e1, e2]
  tauto

theorem itemChar_iff {c : Char} :
    itemChar c = true ↔ (97 ≤ c.toNat ∧ c.toNat ≤ 122) ∨ c.toNat = 32 := by
  have e1 : (' ' : Char).toNat = 32 := rfl
  simp only [itemChar, Bool.or_eq_true, decide_eq_true_eq, charEq_iff, lcLetter_iff, e1]

theorem lcLetter_not_space {c : Char} (h : lcLetter c = true) : pyIsSpace c = false := by
  rw [lcLetter_iff] at h
  cases hs : pyIsSpace c
  · rfl
  · rw [pyIsSpace_iff] at hs; omega

theorem lcLetter_not_digit {c : Char} (h : lcLetter c = true) : c.isDigit = false := by
  rw [lcLetter_iff] at h
  cases hs : c.isDigit
  · rfl
  · rw [isDigit_iff] at hs; omega

theorem amtChar_not_space {c : Char} (h : amtChar c = true) : pyIsSpace c = false := by
  rw [amtChar_iff] at h
  cases hs : pyIsSpace c
  · rfl
  · rw [pyIsSpace_iff] at hs; omega

theorem itemChar_not_amt {c : Char} (h : itemChar c = true) : amtChar c = false := by
  rw [itemChar_iff] at h
  cases hs : amtChar c
  · rfl
  · rw [amtChar_iff] at hs; omega

theorem lcLetter_not_amt {c : Char} (h : lcLetter c = true) : amtChar c = false := by
  cases hs : amtChar c
  · rfl
  · rw [lcLetter_iff] at h; rw [amtChar_iff] at hs; omega

/-- The `lowerChar` map fixes every character outside the uppercase range. -/
theorem lowerChar_eq_self {c : Char} (h : c.toNat < 65 ∨ 90 < c.toNat) :
    lowerChar c = c := by
  unfold lowerChar
  have : ('A' ≤ c && c ≤ 'Z') = false := by
    cases hc1 : decide ('A' ≤ c) <;> cases hc2 : decide (c ≤ 'Z') <;> simp_all [charLe_iff]
    omega
  rw [this]
  simp

theorem amtChar_lower {c : Char} (h : amtChar c = true) : lowerChar c = c := by
  rw [amtChar_iff] at h
  exact lowerChar_eq_self (by omega)

theorem itemChar_lower {c : Char} (h : itemChar c = true) : lowerChar c = c := by
  rw [itemChar_iff] at h
  exact lowerChar_eq_self (by omega)

theorem charNe_of_toNat {c d : Char} (h : c.toNat ≠ d.toNat) : c ≠ d := by
  intro hc
  subst hc
  exact h rfl

/-! ## Groundwork for the round-trip theorem: list facts -/

theorem not_mem_of_all {p : Char → Bool} {cs : List Char} (h : cs.all p = true)
    {x : Char} (hx : p x = false) : ¬ x ∈ cs := by
  intro hmem
  rw [List.all_eq_true] at h
  have := h x hmem
  rw [hx] at this
  cases this

theorem contains_eq_false {cs : List Char} {x : Char} (h : ¬ x ∈ cs) :
    cs.contains x = false := by
  induction cs with
  | nil => rfl
  | cons c t ih =>
    simp only [List.contains_cons]
    have hne : (x == c) = false := by
      cases hxc : x == c
      · rfl
      · exact absurd (by simp_all) h
    rw [hne, ih (fun hm => h (List.mem_cons_of_mem c hm))]
    rfl

theorem spanL_append {p : Char → Bool} {xs : List Char} (ys : List Char)
    (h : xs.all p = true) :
    spanL p (xs ++ ys) = (xs ++ ys.takeWhile p, ys.dropWhile p) := by
  rw [List.all_eq_true] at h
  unfold spanL
  rw [List.takeWhile_append_of_pos (fun a ha => h a ha),
      List.dropWhile_append_of_pos (fun a ha => h a ha)]

theorem takeWhile_nil_head {p : Char → Bool} {c : Char} {cs : List Char}
    (h : p c = false) : (c :: cs).takeWhile p = [] := by
  simp [List.takeWhile_cons, h]

theorem dropWhile_self_head {p : Char → Bool} {c : Char} {cs : List Char}
    (h : p c = false) : (c :: cs).dropWhile p = c :: cs := by
  simp [List.dropWhile_cons, h]

theorem dropWhile_eq_self {p : Char → Bool} {cs : List Char}
    (h : ∀ c, cs.head? = some c → p c = false) : cs.dropWhile p = cs := by
  cases cs with
  | nil => rfl
  | cons c t => exact dropWhile_self_head (h c rfl)

theorem head?_reverse_eq_getLast? (cs : List Char) : cs.reverse.head? = cs.getLast? := by
  rw [List.getLast?_eq_head?_reverse]

theorem pyStrip_eq_self {cs : List Char}
    (h1 : ∀ c, cs.head? = some c → pyIsSpace c = false)
    (h2 : ∀ c, cs.getLast? = some c → pyIsSpace c = false) : pyStrip cs = cs := by
  unfold pyStrip
  rw [dropWhile_eq_self h1]
  rw [dropWhile_eq_self (fun c hc => h2 c (by rwa [head?_reverse_eq_getLast? cs] at hc))]
  exact List.reverse_reverse cs

theorem pyStrip_append_space {A : List Char}
    (h1 : ∀ c, A.head? = some c → pyIsSpace c = false)
    (h2 : ∀ c, A.getLast? = some c → pyIsSpace c = false) :
    pyStrip (A ++ [' ']) = A := by
  cases A with
  | nil => rfl
  | cons a t =>
    unfold pyStrip
    have hstep1 : ((a :: t) ++ [' ']).dropWhile pyIsSpace = (a :: t) ++ [' '] := by
      apply dropWhile_eq_self
      intro c hc
      simp only [List.cons_append, List.head?_cons, Option.some.injEq] at hc
      exact hc ▸ h1 a rfl
    rw [hstep1]
    have hrev : ((a :: t) ++ [' ']).reverse = ' ' :: (a :: t).reverse := by
      simp [List.reverse_append]
    rw [hrev]
    have hsp : pyIsSpace ' ' = true := rfl
    rw [List.dropWhile_cons_of_pos hsp]
    rw [dropWhile_eq_self
      (fun c hc => h2 c (by rwa [head?_reverse_eq_getLast?] at hc))]
    exact List.reverse_reverse _

theorem lowerL_eq_self {cs : List Char} (h : ∀ c ∈ cs, lowerChar c = c) :
    lowerL cs = cs := by
  unfold lowerL
  induction cs with
  | nil => rfl
  | cons c t ih =>
    simp only [List.map_cons]
    rw [h c (List.mem_cons_self c t), ih (fun d hd => h d (List.mem_cons_of_mem c hd))]

theorem rsplitCS_none {cs : List Char} (h : ¬ ',' ∈ cs) : rsplitCS cs = none := by
  induction cs with
  | nil => rfl
  | cons c t ih =>
    unfold rsplitCS
    rw [ih (fun hm => h (List.mem_cons_of_mem c hm))]
    have hc : (c = ',') = False := by
      simp only [eq_iff_iff, iff_false]
      intro hc
      exact h (hc ▸ List.mem_cons_self c t)
    simp [hc]

theorem trySlash_none {cs : List Char} (h : ¬ '/' ∈ cs) : trySlash cs = none := by
  unfold trySlash
  cases hd : cs.dropWhile pyIsSpace with
  | nil => rfl
  | cons c t =>
    have hc : c ∈ cs := by
      have hm : c ∈ cs.dropWhile pyIsSpace := by rw [hd]; exact List.mem_cons_self c t
      exact List.Sublist.mem hm (List.dropWhile_sublist pyIsSpace)
    split
    · rename_i cs2 heq
      injection heq with h7 h8
      subst h7
      exact absurd hc h
    · rfl

theorem normSlashAux_eq_self {cs : List Char} (h : ¬ '/' ∈ cs) :
    ∀ fuel, normSlashAux fuel cs = cs := by
  induction cs with
  | nil => intro fuel; cases fuel <;> rfl
  | cons c t ih =>
    intro fuel
    cases fuel with
    | zero => rfl
    | succ f =>
      unfold normSlashAux
      dsimp only
      have ht : ¬ '/' ∈ t := fun hm => h (List.mem_cons_of_mem c hm)
      rw [trySlash_none ht]
      have hstep : normSlashAux f t = t := ih ht f
      split <;> rw [hstep]

theorem normSlash_eq_self {cs : List Char} (h : ¬ '/' ∈ cs) : normSlash cs = cs :=
  normSlashAux_eq_self h cs.length

theorem inchSubAux_eq_self :
    ∀ (fuel : Nat) (cs : List Char),
      (∀ q ∈ cs, isQuoteChar q = false) → inchSubAux fuel cs = cs := by
  intro fuel
  induction fuel with
  | zero => intro cs _; rfl
  | succ f ih =>
    intro cs h
    cases cs with
    | nil => rfl
    | cons c t =>
      unfold inchSubAux
      dsimp only
      by_cases hd : c.isDigit = true
      · rw [if_pos hd]
        dsimp only [spanL]
        have hsub1 : ∀ x, x ∈ (c :: t).dropWhile Char.isDigit → x ∈ c :: t :=
          fun x hx => List.Sublist.mem hx (List.dropWhile_sublist Char.isDigit)
        cases hq : ((c :: t).dropWhile Char.isDigit).dropWhile pyIsSpace with
        | nil =>
          rw [ih _ (fun q hq2 => h q (hsub1 q hq2))]
          exact List.takeWhile_append_dropWhile Char.isDigit (c :: t)
        | cons q r3 =>
          have hqmem : q ∈ c :: t := by
            apply hsub1
            have hm : q ∈ ((c :: t).dropWhile Char.isDigit).dropWhile pyIsSpace := by
              rw [hq]; exact List.mem_cons_self q r3
            exact List.Sublist.mem hm (List.dropWhile_sublist pyIsSpace)
          dsimp only
          rw [h q hqmem]
          simp only [Bool.false_eq_true, if_false]
          rw [ih _ (fun x hx => h x (hsub1 x hx))]
          exact List.takeWhile_append_dropWhile Char.isDigit (c :: t)
      · rw [if_neg hd]
        rw [ih t (fun q hq => h q (List.mem_cons_of_mem c hq))]

theorem dotStarDollar_no_newline {cs : List Char} (h : ¬ '\n' ∈ cs) :
    dotStarDollar cs = some cs := by
  unfold dotStarDollar
  rw [contains_eq_false h]
  rfl

theorem startsWithL_head_ne {q c : Char} {ps cs : List Char} (h : ¬ q = c) :
    startsWithL (q :: ps) (c :: cs) = false := by
  simp [startsWithL, h]

theorem tospace_false {J rest : List Char}
    (hJ : startsWithL ['e', 't', 's', 'a', 't'] J = false) (hne : J ≠ []) :
    startsWithL ['e', 't', 's', 'a', 't', ' ', 'o', 't', ' '] (J ++ ' ' :: rest) = false := by
  match J with
  | [] => exact absurd rfl hne
  | [c1] =>
    simp only [List.cons_append, List.nil_append, startsWithL]
    rw [show decide (('t' : Char) = ' ') = false from rfl]
    simp
  | [c1, c2] =>
    simp only [List.cons_append, List.nil_append, startsWithL]
    rw [show decide (('s' : Char) = ' ') = false from rfl]
    simp
  | [c1, c2, c3] =>
    simp only [List.cons_append, List.nil_append, startsWithL]
    rw [show decide (('a' : Char) = ' ') = false from rfl]
    simp
  | [c1, c2, c3, c4] =>
    simp only [List.cons_append, List.nil_append, startsWithL]
    rw [show decide (('t' : Char) = ' ') = false from rfl]
    simp
  | c1 :: c2 :: c3 :: c4 :: c5 :: J5 =>
    simp only [List.cons_append, startsWithL] at hJ ⊢
    cases h1 : decide (('e' : Char) = c1) <;> cases h2 : decide (('t' : Char) = c2) <;>
      cases h3 : decide (('s' : Char) = c3) <;> cases h4 : decide (('a' : Char) = c4) <;>
      cases h5 : decide (('t' : Char) = c5) <;> simp_all

theorem endsWith_tospace_false {P I : List Char}
    (hT : startsWithL ['e', 't', 's', 'a', 't'] I.reverse = false) (hne : I ≠ []) :
    endsWithL (' ' :: 't' :: 'o' :: ' ' :: 't' :: 'a' :: 's' :: 't' :: 'e' :: [])
      (P ++ ' ' :: I) = false := by
  unfold endsWithL
  have e1 : (' ' :: 't' :: 'o' :: ' ' :: 't' :: 'a' :: 's' :: 't' :: 'e' :: []).reverse
      = ['e', 't', 's', 'a', 't', ' ', 'o', 't', ' '] := rfl
  rw [e1]
  have hrev : (P ++ ' ' :: I).reverse = I.reverse ++ ' ' :: P.reverse := by
    simp [List.reverse_append]
  rw [hrev]
  apply tospace_false hT
  simpa using hne

theorem informal_heads_nondigit :
    INFORMAL_UNITS.all (fun p =>
      match p.data with
      | x :: _ => !x.isDigit
      | [] => false) = true := rfl

theorem firstInformalPrefix_digit_none {c : Char} {cs : List Char}
    (hc : c.isDigit = true) : firstInformalPrefix (c :: cs) = none := by
  unfold firstInformalPrefix
  apply List.find?_eq_none.mpr
  intro p hp
  have hall := List.all_eq_true.mp informal_heads_nondigit p hp
  cases hpd : p.data with
  | nil => rw [hpd] at hall; cases hall
  | cons x xs =>
    rw [hpd] at hall
    simp only at hall
    intro hcontra
    simp only [startsWithL, Bool.and_eq_true, decide_eq_true_eq] at hcontra
    rcases hcontra with ⟨hxc, -⟩
    rw [hxc, hc] at hall
    cases hall

theorem lookupTable_digit_none {c : Char} {cs : List Char} (hc : c.isDigit = true)
    {t : List (String × String)}
    (ht : t.all (fun p =>
      match p.1.data with
      | x :: _ => !x.isDigit
      | [] => false) = true) :
    lookupTable (c :: cs) t = none := by
  induction t with
  | nil => rfl
  | cons p rest ih =>
    simp only [List.all_cons, Bool.and_eq_true] at ht
    obtain ⟨a, b⟩ := p
    unfold lookupTable
    have hne : ¬ (a.data = c :: cs) := by
      intro he
      have h1 := ht.1
      rw [he] at h1
      simp only at h1
      rw [hc] at h1
      cases h1
    rw [if_neg hne]
    exact ih ht.2

theorem word_keys_nondigit :
    WORD_NUMBERS.all (fun p =>
      match p.1.data with
      | x :: _ => !x.isDigit
      | [] => false) = true := rfl

theorem ne_nil_of_isEmpty_false {l : List Char} (h : l.isEmpty = false) : l ≠ [] := by
  cases l <;> simp_all

theorem amountShape_cases {A : List Char} (h : amountShape A = true) :
    (A ≠ [] ∧ A.all Char.isDigit = true)
      ∨ (∃ d1 d2, A = d1 ++ '-' :: d2 ∧ d1 ≠ [] ∧ d2 ≠ []
          ∧ d1.all Char.isDigit = true ∧ d2.all Char.isDigit = true)
      ∨ (∃ d1 d2, A = d1 ++ '.' :: d2 ∧ d1 ≠ [] ∧ d2 ≠ []
          ∧ d1.all Char.isDigit = true ∧ d2.all Char.isDigit = true) := by
  have hA : A = A.takeWhile Char.isDigit ++ A.dropWhile Char.isDigit :=
    (List.takeWhile_append_dropWhile _ _).symm
  have htake : (A.takeWhile Char.isDigit).all Char.isDigit = true := List.all_takeWhile
  unfold amountShape at h
  dsimp only [spanL] at h
  split at h
  next d1 heq =>
    rw [Prod.mk.injEq] at heq
    obtain ⟨h1, h2⟩ := heq
    rw [Bool.not_eq_true'] at h
    left
    have hAd : A = d1 := by rw [hA, h1, h2, List.append_nil]
    constructor
    · rw [hAd]; exact ne_nil_of_isEmpty_false h
    · rw [hAd, ← h1]; exact htake
  next d1 r2 heq =>
    rw [Prod.mk.injEq] at heq
    obtain ⟨h1, h2⟩ := heq
    simp only [Bool.and_eq_true] at h
    obtain ⟨⟨h11, h12⟩, h13⟩ := h
    rw [Bool.not_eq_true'] at h11 h12
    right; left
    exact ⟨d1, r2, by rw [hA, h1, h2], ne_nil_of_isEmpty_false h11,
      ne_nil_of_isEmpty_false h12, by rw [← h1]; exact htake, h13⟩
  next d1 r2 heq =>
    rw [Prod.mk.injEq] at heq
    obtain ⟨h1, h2⟩ := heq
    simp only [Bool.and_eq_true] at h
    obtain ⟨⟨h11, h12⟩, h13⟩ := h
    rw [Bool.not_eq_true'] at h11 h12
    right; right
    exact ⟨d1, r2, by rw [hA, h1, h2], ne_nil_of_isEmpty_false h11,
      ne_nil_of_isEmpty_false h12, by rw [← h1]; exact htake, h13⟩
  next =>
    cases h

theorem all_imp {p q : Char → Bool} {l : List Char}
    (h : ∀ c, p c = true → q c = true) (hl : l.all p = true) : l.all q = true := by
  rw [List.all_eq_true] at hl ⊢
  exact fun x hx => h x (hl x hx)

theorem takeWhile_all {p : Char → Bool} {l : List Char} (h : l.all p = true) :
    l.takeWhile p = l := by
  induction l with
  | nil => rfl
  | cons c t ih =>
    simp only [List.all_cons, Bool.and_eq_true] at h
    rw [List.takeWhile_cons_of_pos h.1, ih h.2]

theorem dropWhile_all {p : Char → Bool} {l : List Char} (h : l.all p = true) :
    l.dropWhile p = [] := by
  induction l with
  | nil => rfl
  | cons c t ih =>
    simp only [List.all_cons, Bool.and_eq_true] at h
    rw [List.dropWhile_cons_of_pos h.1, ih h.2]

theorem spanL_all {p : Char → Bool} {l : List Char} (h : l.all p = true) :
    spanL p l = (l, []) := by
  unfold spanL
  rw [takeWhile_all h, dropWhile_all h]

theorem spanL_append_head {p : Char → Bool} {d1 rest : List Char}
    (hd1 : d1.all p = true) (hr : ∀ c, rest.head? = some c → p c = false) :
    spanL p (d1 ++ rest) = (d1, rest) := by
  rw [spanL_append rest hd1]
  cases rest with
  | nil => simp
  | cons c t =>
    rw [takeWhile_nil_head (hr c rfl), dropWhile_self_head (hr c rfl)]
    simp

theorem digit_amt {c : Char} (h : c.isDigit = true) : amtChar c = true := by
  simp [amtChar, h]

theorem amountShape_all_amt {A : List Char} (h : amountShape A = true) :
    A.all amtChar = true := by
  rcases amountShape_cases h with ⟨-, hall⟩ | ⟨d1, d2, hAe, -, -, h1, h2⟩
    | ⟨d1, d2, hAe, -, -, h1, h2⟩
  · exact all_imp (fun c => digit_amt) hall
  · rw [hAe]
    rw [List.all_append, List.all_cons]
    rw [all_imp (fun c => digit_amt) h1, all_imp (fun c => digit_amt) h2]
    rfl
  · rw [hAe]
    rw [List.all_append, List.all_cons]
    rw [all_imp (fun c => digit_amt) h1, all_imp (fun c => digit_amt) h2]
    rfl

theorem amountShape_head_digit {A : List Char} (h : amountShape A = true) :
    ∃ c cs, A = c :: cs ∧ c.isDigit = true := by
  rcases amountShape_cases h with ⟨hne, hall⟩ | ⟨d1, d2, hAe, hd1, -, h1, -⟩
    | ⟨d1, d2, hAe, hd1, -, h1, -⟩
  · cases hA : A with
    | nil => exact absurd hA hne
    | cons c cs =>
      refine ⟨c, cs, rfl, ?_⟩
      rw [hA, List.all_cons, Bool.and_eq_true] at hall
      exact hall.1
  · cases hd : d1 with
    | nil => exact absurd hd hd1
    | cons c cs =>
      refine ⟨c, cs ++ '-' :: d2, by rw [hAe, hd]; rfl, ?_⟩
      rw [hd, List.all_cons, Bool.and_eq_true] at h1
      exact h1.1
  · cases hd : d1 with
    | nil => exact absurd hd hd1
    | cons c cs =>
      refine ⟨c, cs ++ '.' :: d2, by rw [hAe, hd]; rfl, ?_⟩
      rw [hd, List.all_cons, Bool.and_eq_true] at h1
      exact h1.1

theorem amountShape_rev_digit {A : List Char} (h : amountShape A = true) :
    ∃ c cs, A.reverse = c :: cs ∧ c.isDigit = true := by
  rcases amountShape_cases h with ⟨hne, hall⟩ | ⟨d1, d2, hAe, -, hd2, -, h2⟩
    | ⟨d1, d2, hAe, -, hd2, -, h2⟩
  · cases hA : A.reverse with
    | nil =>
      exact absurd (by simpa using congrArg List.reverse hA) hne
    | cons c cs =>
      refine ⟨c, cs, rfl, ?_⟩
      have hmem : c ∈ A := by
        have : c ∈ A.reverse := by rw [hA]; exact List.mem_cons_self c cs
        simpa using this
      exact List.all_eq_true.mp hall c hmem
  · cases hd : d2.reverse with
    | nil =>
      exact absurd (by simpa using congrArg List.reverse hd) hd2
    | cons c cs =>
      refine ⟨c, cs ++ '-' :: d1.reverse, ?_, ?_⟩
      · rw [hAe]
        simp [List.reverse_append, hd]
      · have hmem : c ∈ d2 := by
          have hm2 : c ∈ d2.reverse := by rw [hd]; exact List.mem_cons_self c cs
          simpa using hm2
        exact List.all_eq_true.mp h2 c hmem
  · cases hd : d2.reverse with
    | nil =>
      exact absurd (by simpa using congrArg List.reverse hd) hd2
    | cons c cs =>
      refine ⟨c, cs ++ '.' :: d1.reverse, ?_, ?_⟩
      · rw [hAe]
        simp [List.reverse_append, hd]
      · have hmem : c ∈ d2 := by
          have hm2 : c ∈ d2.reverse := by rw [hd]; exact List.mem_cons_self c cs
          simpa using hm2
        exact List.all_eq_true.mp h2 c hmem

theorem isEmpty_false_of_ne {l : List Char} (h : l ≠ []) : l.isEmpty = false := by
  cases l with
  | nil => exact absurd rfl h
  | cons c t => rfl

theorem amountShape_ne_nil {A : List Char} (h : amountShape A = true) : A ≠ [] := by
  obtain ⟨c, cs, hcons, -⟩ := amountShape_head_digit h
  rw [hcons]
  exact List.cons_ne_nil c cs

theorem amtChar_mem_facts {A : List Char} (h : A.all amtChar = true) :
    ¬ '/' ∈ A ∧ ¬ ',' ∈ A ∧ ¬ '\n' ∈ A := by
  refine ⟨not_mem_of_all h rfl, not_mem_of_all h rfl, not_mem_of_all h rfl⟩

theorem pyStrip_amount {A : List Char} (h : amountShape A = true) : pyStrip A = A := by
  obtain ⟨c, cs, hcons, hcd⟩ := amountShape_head_digit h
  obtain ⟨e, es, hrev, hed⟩ := amountShape_rev_digit h
  apply pyStrip_eq_self
  · intro d hd
    rw [hcons] at hd
    simp only [List.head?_cons, Option.some.injEq] at hd
    subst hd
    rw [isDigit_iff] at hcd
    cases hs : pyIsSpace c
    · rfl
    · rw [pyIsSpace_iff] at hs; omega
  · intro d hd
    rw [← head?_reverse_eq_getLast?, hrev] at hd
    simp only [List.head?_cons, Option.some.injEq] at hd
    subst hd
    rw [isDigit_iff] at hed
    cases hs : pyIsSpace e
    · rfl
    · rw [pyIsSpace_iff] at hs; omega

theorem lowerL_amount {A : List Char} (h : A.all amtChar = true) : lowerL A = A := by
  apply lowerL_eq_self
  intro c hc
  exact amtChar_lower (List.all_eq_true.mp h c hc)

theorem parseAmountL_fix {A : List Char} (h : amountShape A = true) :
    parseAmountL A = .ok A := by
  have hne : A ≠ [] := amountShape_ne_nil h
  have hallamt : A.all amtChar = true := amountShape_all_amt h
  have hstrip : pyStrip A = A := pyStrip_amount h
  have hlow : lowerL A = A := lowerL_amount hallamt
  obtain ⟨c0, cs0, hcons, hc0⟩ := amountShape_head_digit h
  have hword : lookupTable (lowerL (pyStrip A)) WORD_NUMBERS = none := by
    rw [hstrip, hlow, hcons]
    exact lookupTable_digit_none hc0 word_keys_nondigit
  have hnoslash : ¬ '/' ∈ A := (amtChar_mem_facts hallamt).1
  unfold parseAmountL
  rw [if_neg hne]
  dsimp only
  rw [hword]
  dsimp only
  rw [hstrip]
  rcases amountShape_cases h with ⟨-, hall⟩ | ⟨d1, d2, hAe, hd1, hd2, h1, h2⟩
    | ⟨d1, d2, hAe, hd1, hd2, h1, h2⟩
  · have hspan : spanL Char.isDigit A = (A, []) := spanL_all hall
    have hrange : isRangeL A = false := by
      unfold isRangeL
      rw [hspan]
    have hdec : isDecimalL A = false := by
      unfold isDecimalL
      rw [hspan]
    have hnorm : normSlash A = A := normSlash_eq_self hnoslash
    have hmix : matchMixed A = none := by
      unfold matchMixed
      rw [hspan]
      dsimp only
      rw [isEmpty_false_of_ne hne]
      simp only [Bool.false_eq_true, if_false]
      rfl
    have hfrac : matchFrac A = none := by
      unfold matchFrac
      rw [hspan]
      dsimp only
      rw [isEmpty_false_of_ne hne]
      simp only [Bool.false_eq_true, if_false]
    have hwhole : matchWholeL A = some A := by
      unfold matchWholeL
      rw [hspan]
      dsimp only
      rw [isEmpty_false_of_ne hne]
      rfl
    rw [hrange, hdec, hnorm, hmix, hfrac, hwhole]
    rfl
  · have hspan : spanL Char.isDigit A = (d1, '-' :: d2) := by
      rw [hAe]
      exact spanL_append_head h1 (fun c hc => by
        simp only [List.head?_cons, Option.some.injEq] at hc
        rw [← hc]
        rfl)
    have hspan2 : spanL Char.isDigit d2 = (d2, []) := spanL_all h2
    have hrange : isRangeL A = true := by
      unfold isRangeL
      rw [hspan]
      dsimp only
      split
      next rest2 heq =>
        injection heq with h7 h8
        subst h8
        rw [hspan2]
        dsimp only
        rw [isEmpty_false_of_ne hd1, isEmpty_false_of_ne hd2]
        rfl
      next hno =>
        exact absurd rfl (hno d2)
    rw [hrange]
    rfl
  · have hspan : spanL Char.isDigit A = (d1, '.' :: d2) := by
      rw [hAe]
      exact spanL_append_head h1 (fun c hc => by
        simp only [List.head?_cons, Option.some.injEq] at hc
        rw [← hc]
        rfl)
    have hspan2 : spanL Char.isDigit d2 = (d2, []) := spanL_all h2
    have hrange : isRangeL A = false := by
      unfold isRangeL
      rw [hspan]
      dsimp only
      split
      next rest2 heq =>
        injection heq with h7 h8
        exact absurd h7 (by decide)
      next hno => rfl
    have hdec : isDecimalL A = true := by
      unfold isDecimalL
      rw [hspan]
      dsimp only
      split
      next rest2 heq =>
        injection heq with h7 h8
        subst h8
        rw [hspan2]
        dsimp only
        rw [isEmpty_false_of_ne hd1, isEmpty_false_of_ne hd2]
        rfl
      next hno =>
        exact absurd rfl (hno d2)
    rw [hrange, hdec]
    rfl

theorem isAmtClass_iff {c : Char} :
    isAmtClass c = true ↔
      (48 ≤ c.toNat ∧ c.toNat ≤ 57) ∨ c.toNat = 47 ∨ c.toNat = 46
        ∨ (c.toNat = 32 ∨ c.toNat = 9 ∨ c.toNat = 10 ∨ c.toNat = 13
            ∨ c.toNat = 11 ∨ c.toNat = 12)
        ∨ c.toNat = 45 := by
  have e1 : ('/' : Char).toNat = 47 := rfl
  have e2 : ('.' : Char).toNat = 46 := rfl
  have e3 : ('-' : Char).toNat = 45 := rfl
  simp only [isAmtClass, Bool.or_eq_true, decide_eq_true_eq, charEq_iff, isDigit_iff,
    e1, e2, e3]
  rw [pyIsSpace_iff]
  tauto

theorem isQuoteChar_iff {c : Char} :
    isQuoteChar c = true ↔
      c.toNat = 34 ∨ c.toNat = 39 ∨ c.toNat = 8220 ∨ c.toNat = 8221 := by
  have e1 : ('"' : Char).toNat = 34 := rfl
  have e2 : ('\'' : Char).toNat = 39 := rfl
  have e3 : (Char.ofNat 0x201c).toNat = 8220 := rfl
  have e4 : (Char.ofNat 0x201d).toNat = 8221 := rfl
  simp only [isQuoteChar, Bool.or_eq_true, decide_eq_true_eq, charEq_iff, e1, e2, e3, e4]
  tauto

theorem amtChar_class {c : Char} (h : amtChar c = true) : isAmtClass c = true := by
  rw [amtChar_iff] at h
  rw [isAmtClass_iff]
  tauto

theorem lcLetter_not_class {c : Char} (h : lcLetter c = true) : isAmtClass c = false := by
  rw [lcLetter_iff] at h
  cases hs : isAmtClass c
  · rfl
  · rw [isAmtClass_iff] at hs; omega

theorem amtChar_not_quote {c : Char} (h : amtChar c = true) : isQuoteChar c = false := by
  rw [amtChar_iff] at h
  cases hs : isQuoteChar c
  · rfl
  · rw [isQuoteChar_iff] at hs; omega

theorem itemChar_not_quote {c : Char} (h : itemChar c = true) : isQuoteChar c = false := by
  rw [itemChar_iff] at h
  cases hs : isQuoteChar c
  · rfl
  · rw [isQuoteChar_iff] at hs; omega

theorem itemChar_not_newline {c : Char} (h : itemChar c = true) : c ≠ '\n' := by
  rw [itemChar_iff] at h
  apply charNe_of_toNat
  have e : ('\n' : Char).toNat = 10 := rfl
  omega

theorem itemChar_not_comma {c : Char} (h : itemChar c = true) : c ≠ ',' := by
  rw [itemChar_iff] at h
  apply charNe_of_toNat
  have e : (',' : Char).toNat = 44 := rfl
  omega

theorem amtChar_not_comma {c : Char} (h : amtChar c = true) : c ≠ ',' := by
  rw [amtChar_iff] at h
  apply charNe_of_toNat
  have e : (',' : Char).toNat = 44 := rfl
  omega

theorem lcLetter_item {c : Char} (h : lcLetter c = true) : itemChar c = true := by
  simp [itemChar, h]

theorem getLast?_append_cons {A R : List Char} {s : Char} (hR : R ≠ []) :
    (A ++ s :: R).getLast? = R.getLast? := by
  rw [← head?_reverse_eq_getLast?, ← head?_reverse_eq_getLast?]
  rw [List.reverse_append]
  cases hRr : R.reverse with
  | nil => exact absurd (by simpa using congrArg List.reverse hRr) hR
  | cons c t => simp [hRr]

theorem rstripSet_eq_self {set cs : List Char}
    (h : ∀ c, cs.getLast? = some c → set.contains c = false) :
    rstripSet set cs = cs := by
  unfold rstripSet
  rw [dropWhile_eq_self (fun c hc => h c (by rwa [head?_reverse_eq_getLast?] at hc))]
  exact List.reverse_reverse cs

theorem itemChar_not_punct {c : Char} (h : itemChar c = true) :
    ([',', '.', ';', ':'] : List Char).contains c = false := by
  rw [itemChar_iff] at h
  cases hs : ([',', '.', ';', ':'] : List Char).contains c
  · rfl
  · exfalso
    have e1 : (',' : Char).toNat = 44 := rfl
    have e2 : ('.' : Char).toNat = 46 := rfl
    have e3 : (';' : Char).toNat = 59 := rfl
    have e4 : (':' : Char).toNat = 58 := rfl
    simp only [List.contains_cons, List.contains_nil, Bool.or_eq_true, beq_iff_eq]
      at hs
    rcases hs with hc | hc | hc | hc | hc
    · rw [hc] at h; omega
    · rw [hc] at h; omega
    · rw [hc] at h; omega
    · rw [hc] at h; omega
    · cases hc

theorem mem_of_head? {c : Char} {l : List Char} (h : l.head? = some c) : c ∈ l := by
  cases l with
  | nil => cases h
  | cons a t =>
    simp only [List.head?_cons, Option.some.injEq] at h
    rw [← h]
    exact List.mem_cons_self a t

theorem mem_of_getLast? {c : Char} {l : List Char} (h : l.getLast? = some c) : c ∈ l := by
  rw [← head?_reverse_eq_getLast?] at h
  have := mem_of_head? h
  simpa using this

theorem itemChar_nonspace {c : Char} (h : itemChar c = true) (hcs : c ≠ ' ') :
    pyIsSpace c = false := by
  rw [itemChar_iff] at h
  cases hs : pyIsSpace c
  · rfl
  · exfalso
    rw [pyIsSpace_iff] at hs
    have e : (' ' : Char).toNat = 32 := rfl
    rcases h with h9 | h9
    · omega
    · exact hcs (charEq_iff.mpr (by omega))

theorem itemOk_strip {I : List Char} (hI : itemOk I = true) : pyStrip I = I := by
  unfold itemOk at hI
  simp only [Bool.and_eq_true, bne_iff_ne, ne_eq] at hI
  obtain ⟨⟨hall, hhead⟩, hlast⟩ := hI
  apply pyStrip_eq_self
  · intro c hc
    refine itemChar_nonspace (List.all_eq_true.mp hall c (mem_of_head? hc)) ?_
    intro he
    rw [he] at hc
    exact hhead hc
  · intro c hc
    refine itemChar_nonspace (List.all_eq_true.mp hall c (mem_of_getLast? hc)) ?_
    intro he
    rw [he] at hc
    exact hlast hc

theorem cleanItem_itemOk {I : List Char} (hI : itemOk I = true) : cleanItem I = I := by
  have hstrip : pyStrip I = I := itemOk_strip hI
  unfold itemOk at hI
  simp only [Bool.and_eq_true, bne_iff_ne, ne_eq] at hI
  obtain ⟨⟨hall, hhead⟩, hlast⟩ := hI
  have hlower : lowerL I = I :=
    lowerL_eq_self (fun c hc => itemChar_lower (List.all_eq_true.mp hall c hc))
  unfold cleanItem
  rw [hlower, hstrip]
  exact rstripSet_eq_self
    (fun c hc => itemChar_not_punct (List.all_eq_true.mp hall c (mem_of_getLast? hc)))

theorem all_of_sublist {p : Char → Bool} {l l' : List Char} (hs : List.Sublist l' l)
    (h : l.all p = true) : l'.all p = true := by
  rw [List.all_eq_true] at h ⊢
  intro c hc
  exact h c (hs.mem hc)

theorem itemChar_letter {c : Char} (h : itemChar c = true) (hne : c ≠ ' ') :
    lcLetter c = true := by
  rw [itemChar_iff] at h
  rw [lcLetter_iff]
  have e : (' ' : Char).toNat = 32 := rfl
  rcases h with h | h
  · exact h
  · exact absurd (charEq_iff.mpr (by omega)) hne

theorem amountShape_head_nospace {A : List Char} (h : amountShape A = true) :
    ∀ c, A.head? = some c → pyIsSpace c = false := by
  obtain ⟨c0, cs0, hcons, hcd⟩ := amountShape_head_digit h
  intro d hd
  rw [hcons] at hd
  simp only [List.head?_cons, Option.some.injEq] at hd
  subst hd
  rw [isDigit_iff] at hcd
  cases hs : pyIsSpace c0
  · rfl
  · rw [pyIsSpace_iff] at hs; omega

theorem amountShape_last_nospace {A : List Char} (h : amountShape A = true) :
    ∀ c, A.getLast? = some c → pyIsSpace c = false := by
  obtain ⟨e0, es0, hrev, hed⟩ := amountShape_rev_digit h
  intro d hd
  rw [← head?_reverse_eq_getLast?, hrev] at hd
  simp only [List.head?_cons, Option.some.injEq] at hd
  subst hd
  rw [isDigit_iff] at hed
  cases hs : pyIsSpace e0
  · rfl
  · rw [pyIsSpace_iff] at hs; omega

theorem itemOk_all {I : List Char} (hI : itemOk I = true) : I.all itemChar = true := by
  unfold itemOk at hI
  simp only [Bool.and_eq_true] at hI
  exact hI.1.1

theorem itemOk_last {I : List Char} (hI : itemOk I = true) :
    ∀ c, I.getLast? = some c → pyIsSpace c = false := by
  unfold itemOk at hI
  simp only [Bool.and_eq_true, bne_iff_ne, ne_eq] at hI
  intro c hc
  refine itemChar_nonspace (List.all_eq_true.mp hI.1.1 c (mem_of_getLast? hc)) ?_
  intro he; rw [he] at hc; exact hI.2 hc

theorem itemOk_head_letter {I : List Char} (hI : itemOk I = true) :
    ∀ c, I.head? = some c → lcLetter c = true := by
  unfold itemOk at hI
  simp only [Bool.and_eq_true, bne_iff_ne, ne_eq] at hI
  intro c hc
  refine itemChar_letter (List.all_eq_true.mp hI.1.1 c (mem_of_head? hc)) ?_
  intro he; rw [he] at hc; exact hI.1.2 hc

theorem text_head_digit {A : List Char} (R : List Char) (hA : amountShape A = true) :
    ∃ c cs, A ++ ' ' :: R = c :: cs ∧ c.isDigit = true := by
  obtain ⟨c, cs', hcons, hcd⟩ := amountShape_head_digit hA
  exact ⟨c, cs' ++ ' ' :: R, by rw [hcons, List.cons_append], hcd⟩

theorem text_strip {A R : List Char} (hA : amountShape A = true)
    (hR : itemOk R = true) (hRne : R ≠ []) :
    pyStrip (A ++ ' ' :: R) = A ++ ' ' :: R := by
  apply pyStrip_eq_self
  · intro d hd
    obtain ⟨c0, cs0, hcons, hcd⟩ := text_head_digit R hA
    rw [hcons] at hd
    simp only [List.head?_cons, Option.some.injEq] at hd
    subst hd
    rw [isDigit_iff] at hcd
    cases hs : pyIsSpace c0
    · rfl
    · rw [pyIsSpace_iff] at hs; omega
  · intro d hd
    rw [getLast?_append_cons hRne] at hd
    exact itemOk_last hR d hd

theorem text_no_comma {A R : List Char} (hA : A.all amtChar = true)
    (hR : R.all itemChar = true) : ¬ ',' ∈ A ++ ' ' :: R := by
  intro hm
  rcases List.mem_append.mp hm with hm | hm
  · exact absurd hm (not_mem_of_all hA rfl)
  · rcases List.mem_cons.mp hm with hm | hm
    · exact absurd hm (by decide)
    · exact absurd hm (not_mem_of_all hR rfl)

theorem lowerL_item {I : List Char} (h : I.all itemChar = true) : lowerL I = I :=
  lowerL_eq_self (fun c hc => itemChar_lower (List.all_eq_true.mp h c hc))

theorem text_lower {A R : List Char} (hA : A.all amtChar = true)
    (hR : R.all itemChar = true) : lowerL (A ++ ' ' :: R) = A ++ ' ' :: R := by
  have h1 : lowerL A = A := lowerL_amount hA
  have h2 : lowerL R = R := lowerL_item hR
  unfold lowerL at *
  rw [List.map_append, List.map_cons, h1, h2]
  rfl

theorem text_no_quote {A R : List Char} (hA : A.all amtChar = true)
    (hR : R.all itemChar = true) :
    ∀ q ∈ A ++ ' ' :: R, isQuoteChar q = false := by
  intro q hq
  rcases List.mem_append.mp hq with hm | hm
  · exact amtChar_not_quote (List.all_eq_true.mp hA q hm)
  · rcases List.mem_cons.mp hm with hm | hm
    · rw [hm]; rfl
    · exact itemChar_not_quote (List.all_eq_true.mp hR q hm)

theorem parseStandardL_split {A R : List Char}
    (hA : amountShape A = true) (hR : itemOk R = true) (hRne : R ≠ []) :
    parseStandardL (A ++ ' ' :: R) =
      if isUnitWord (lowerL (splitOnce R).1) then
        Except.ok ⟨some ⟨A⟩, some (normalize_unit ⟨lowerL (splitOnce R).1⟩),
          some ⟨cleanItem ((splitOnce R).2.getD [])⟩, none⟩
      else Except.ok ⟨some ⟨A⟩, some "whole", some ⟨cleanItem R⟩, none⟩ := by
  have hallA : A.all amtChar = true := amountShape_all_amt hA
  have hallR : R.all itemChar = true := itemOk_all hR
  have h1 : inchSub (A ++ ' ' :: R) = A ++ ' ' :: R :=
    inchSubAux_eq_self _ _ (text_no_quote hallA hallR)
  have h2 : pyStrip (A ++ ' ' :: R) = A ++ ' ' :: R := text_strip hA hR hRne
  have hclass : (A ++ [' ']).all isAmtClass = true := by
    simp only [List.all_append, Bool.and_eq_true]
    exact ⟨all_imp (fun c h => amtChar_class h) hallA, rfl⟩
  have hRhead : ∀ c, R.head? = some c → isAmtClass c = false := by
    intro c hc
    exact lcLetter_not_class (itemOk_head_letter hR c hc)
  have h3 : spanL isAmtClass (A ++ ' ' :: R) = (A ++ [' '], R) := by
    have he : A ++ ' ' :: R = (A ++ [' ']) ++ R := by simp
    rw [he]
    exact spanL_append_head hclass hRhead
  have h4 : dotStarDollar R = some R :=
    dotStarDollar_no_newline (not_mem_of_all hallR rfl)
  have h5 : pyStrip (A ++ [' ']) = A :=
    pyStrip_append_space (amountShape_head_nospace hA) (amountShape_last_nospace hA)
  have hAe : A.isEmpty = false := isEmpty_false_of_ne (amountShape_ne_nil hA)
  have h6 : parseAmountL A = Except.ok A := parseAmountL_fix hA
  have h7 : pyStrip R = R := itemOk_strip hR
  have hRe : R.isEmpty = false := isEmpty_false_of_ne hRne
  unfold parseStandardL
  rw [h1]
  dsimp only
  rw [h2, h3]
  dsimp only
  rw [h4]
  dsimp only
  rw [h5, hAe]
  simp only [Bool.false_eq_true, if_false]
  rw [h6]
  dsimp only
  rw [h7, hRe]
  simp only [Bool.false_eq_true, if_false]
  rcases hsp : splitOnce R with ⟨w1, restW⟩
  dsimp only
  rfl

theorem parseIngredientL_split {A R : List Char}
    (hA : amountShape A = true) (hR : itemOk R = true) (hRne : R ≠ [])
    (hTaste : endsWithL
        (' ' :: 't' :: 'o' :: ' ' :: 't' :: 'a' :: 's' :: 't' :: 'e' :: [])
        (A ++ ' ' :: R) = false) :
    parseIngredientL (A ++ ' ' :: R) = parseStandardL (A ++ ' ' :: R) := by
  have hallA : A.all amtChar = true := amountShape_all_amt hA
  have hallR : R.all itemChar = true := itemOk_all hR
  have hne : A ++ ' ' :: R ≠ [] := by simp
  have hEmpty : (A ++ ' ' :: R).isEmpty = false := isEmpty_false_of_ne hne
  have h2 : pyStrip (A ++ ' ' :: R) = A ++ ' ' :: R := text_strip hA hR hRne
  have h3 : rsplitCS (A ++ ' ' :: R) = none := rsplitCS_none (text_no_comma hallA hallR)
  have hlow : lowerL (A ++ ' ' :: R) = A ++ ' ' :: R := text_lower hallA hallR
  obtain ⟨c0, cs0, hcons, hcd⟩ := text_head_digit R hA
  have hfip : firstInformalPrefix (A ++ ' ' :: R) = none := by
    rw [hcons]; exact firstInformalPrefix_digit_none hcd
  unfold parseIngredientL
  rw [hEmpty]
  simp only [Bool.false_eq_true, if_false]
  rw [h2, h3]
  dsimp only
  unfold restIngredient
  dsimp only
  rw [hlow, hfip]
  dsimp only
  rw [hTaste]
  simp only [Bool.false_eq_true, if_false]

theorem parseIngredientL_amount_only {A : List Char} (hA : amountShape A = true) :
    parseIngredientL A = Except.ok ⟨some ⟨A⟩, some "whole", some "", none⟩ := by
  have hallA : A.all amtChar = true := amountShape_all_amt hA
  have hne : A ≠ [] := amountShape_ne_nil hA
  have hEmpty : A.isEmpty = false := isEmpty_false_of_ne hne
  have h2 : pyStrip A = A := pyStrip_amount hA
  have h3 : rsplitCS A = none := rsplitCS_none (amtChar_mem_facts hallA).2.1
  have hlow : lowerL A = A := lowerL_amount hallA
  obtain ⟨c0, cs0, hcons, hcd⟩ := amountShape_head_digit hA
  have hfip : firstInformalPrefix A = none := by
    rw [hcons]; exact firstInformalPrefix_digit_none hcd
  obtain ⟨e0, es0, hrev, hed⟩ := amountShape_rev_digit hA
  have htaste : endsWithL
      (' ' :: 't' :: 'o' :: ' ' :: 't' :: 'a' :: 's' :: 't' :: 'e' :: []) A = false := by
    unfold endsWithL
    have he : (' ' :: 't' :: 'o' :: ' ' :: 't' :: 'a' :: 's' :: 't' :: 'e' :: []).reverse
        = ['e', 't', 's', 'a', 't', ' ', 'o', 't', ' '] := rfl
    rw [he, hrev]
    apply startsWithL_head_ne
    intro hEq
    rw [isDigit_iff] at hed
    have he2 : ('e' : Char).toNat = 101 := rfl
    rw [← hEq] at hed
    omega
  have hq : ∀ q ∈ A, isQuoteChar q = false :=
    fun q hq => amtChar_not_quote (List.all_eq_true.mp hallA q hq)
  have h1 : inchSub A = A := inchSubAux_eq_self _ _ hq
  have hspan : spanL isAmtClass A = (A, []) :=
    spanL_all (all_imp (fun c h => amtChar_class h) hallA)
  have h6 : parseAmountL A = Except.ok A := parseAmountL_fix hA
  have hd0 : dotStarDollar ([] : List Char) = some [] := rfl
  have hs0 : pyStrip ([] : List Char) = [] := rfl
  unfold parseIngredientL
  rw [hEmpty]
  simp only [Bool.false_eq_true, if_false]
  rw [h2, h3]
  dsimp only
  unfold restIngredient
  dsimp only
  rw [hlow, hfip]
  dsimp only
  rw [htaste]
  simp only [Bool.false_eq_true, if_false]
  unfold parseStandardL
  rw [h1]
  dsimp only
  rw [h2, hspan]
  dsimp only
  rw [hd0]
  dsimp only
  rw [h2, hEmpty]
  simp only [Bool.false_eq_true, if_false]
  rw [h6]
  dsimp only
  rw [hs0]
  rfl


theorem splitOnce_word {W I : List Char}
    (hW : ∀ c ∈ W, pyIsSpace c = false)
    (hIh : ∀ c, I.head? = some c → pyIsSpace c = false)
    (hIne : I ≠ []) :
    splitOnce (W ++ ' ' :: I) = (W, some I) := by
  have hWall : W.all (fun c => !pyIsSpace c) = true := by
    rw [List.all_eq_true]
    intro c hc
    rw [hW c hc]
    rfl
  have hsp : spanL (fun c => !pyIsSpace c) (W ++ ' ' :: I) = (W, ' ' :: I) := by
    apply spanL_append_head hWall
    intro c hc
    simp only [List.head?_cons, Option.some.injEq] at hc
    rw [← hc]
    rfl
  have ht : (W ++ ' ' :: I).takeWhile (fun c => !pyIsSpace c) = W := by
    have h := congrArg Prod.fst hsp
    simpa [spanL] using h
  have hd : (W ++ ' ' :: I).dropWhile (fun c => !pyIsSpace c) = ' ' :: I := by
    have h := congrArg Prod.snd hsp
    simpa [spanL] using h
  unfold splitOnce
  dsimp only
  rw [ht, hd]
  rw [List.dropWhile_cons_of_pos (by rfl : pyIsSpace ' ' = true)]
  rw [dropWhile_eq_self hIh]
  rw [isEmpty_false_of_ne hIne]
  simp only [Bool.false_eq_true, if_false]

theorem splitOnce_nospace {W : List Char} (hW : ∀ c ∈ W, pyIsSpace c = false) :
    splitOnce W = (W, none) := by
  have hWall : W.all (fun c => !pyIsSpace c) = true := by
    rw [List.all_eq_true]
    intro c hc
    rw [hW c hc]
    rfl
  have ht : W.takeWhile (fun c => !pyIsSpace c) = W := takeWhile_all hWall
  have hd : W.dropWhile (fun c => !pyIsSpace c) = [] := dropWhile_all hWall
  unfold splitOnce
  dsimp only
  rw [ht, hd]
  rfl

theorem itemOk_of_letters {W : List Char} (hW : W.all lcLetter = true) :
    itemOk W = true := by
  unfold itemOk
  simp only [Bool.and_eq_true, bne_iff_ne, ne_eq]
  have e : (' ' : Char).toNat = 32 := rfl
  refine ⟨⟨all_imp (fun c h => lcLetter_item h) hW, ?_⟩, ?_⟩
  · intro hc
    have h := List.all_eq_true.mp hW ' ' (mem_of_head? hc)
    rw [lcLetter_iff] at h
    omega
  · intro hc
    have h := List.all_eq_true.mp hW ' ' (mem_of_getLast? hc)
    rw [lcLetter_iff] at h
    omega

theorem itemOk_append {W I : List Char} (hW : W.all lcLetter = true) (hWne : W ≠ [])
    (hI : itemOk I = true) (hIne : I ≠ []) : itemOk (W ++ ' ' :: I) = true := by
  have hIall : I.all itemChar = true := itemOk_all hI
  unfold itemOk
  simp only [Bool.and_eq_true, bne_iff_ne, ne_eq]
  have e : (' ' : Char).toNat = 32 := rfl
  refine ⟨⟨?_, ?_⟩, ?_⟩
  · rw [List.all_append]
    simp only [Bool.and_eq_true, List.all_cons]
    exact ⟨all_imp (fun c h => lcLetter_item h) hW, rfl, hIall⟩
  · cases W with
    | nil => exact absurd rfl hWne
    | cons w ws =>
      intro hc
      simp only [List.cons_append, List.head?_cons, Option.some.injEq] at hc
      have h := List.all_eq_true.mp hW w (List.mem_cons_self w ws)
      rw [hc] at h
      rw [lcLetter_iff] at h
      omega
  · rw [getLast?_append_cons hIne]
    intro hc
    unfold itemOk at hI
    simp only [Bool.and_eq_true, bne_iff_ne, ne_eq] at hI
    exact hI.2 hc

theorem roundtrip_unit_item {a i : String} {W : List Char}
    (hA : amountShape a.data = true)
    (hI : itemOk i.data = true) (hIne : i.data ≠ [])
    (hW : W.all lcLetter = true) (hWne : W ≠ [])
    (hok : isUnitWord (lowerL W) = true)
    (hT : startsWithL ['e', 't', 's', 'a', 't'] i.data.reverse = false) :
    parseIngredientL (a.data ++ ' ' :: (W ++ ' ' :: i.data)) =
      Except.ok ⟨some a, some (normalize_unit ⟨lowerL W⟩), some i, none⟩ := by
  have hR : itemOk (W ++ ' ' :: i.data) = true := itemOk_append hW hWne hI hIne
  have hRne : W ++ ' ' :: i.data ≠ [] := by simp
  have hTaste : endsWithL
      (' ' :: 't' :: 'o' :: ' ' :: 't' :: 'a' :: 's' :: 't' :: 'e' :: [])
      (a.data ++ ' ' :: (W ++ ' ' :: i.data)) = false := by
    have he : a.data ++ ' ' :: (W ++ ' ' :: i.data)
        = (a.data ++ ' ' :: W) ++ ' ' :: i.data := by simp
    rw [he]
    exact endsWith_tospace_false hT hIne
  rw [parseIngredientL_split hA hR hRne hTaste]
  rw [parseStandardL_split hA hR hRne]
  have hWns : ∀ c ∈ W, pyIsSpace c = false :=
    fun c hc => lcLetter_not_space (List.all_eq_true.mp hW c hc)
  have hsp : splitOnce (W ++ ' ' :: i.data) = (W, some i.data) :=
    splitOnce_word hWns (fun c hc => lcLetter_not_space (itemOk_head_letter hI c hc)) hIne
  rw [hsp]
  dsimp only
  rw [if_pos hok]
  simp only [Option.getD_some]
  rw [cleanItem_itemOk hI]

theorem roundtrip_unit_empty {a : String} {W : List Char}
    (hA : amountShape a.data = true)
    (hW : W.all lcLetter = true) (hWne : W ≠ [])
    (hok : isUnitWord (lowerL W) = true)
    (hTW : startsWithL ['e', 't', 's', 'a', 't'] W.reverse = false) :
    parseIngredientL (a.data ++ ' ' :: W) =
      Except.ok ⟨some a, some (normalize_unit ⟨lowerL W⟩), some "", none⟩ := by
  have hR : itemOk W = true := itemOk_of_letters hW
  have hTaste : endsWithL
      (' ' :: 't' :: 'o' :: ' ' :: 't' :: 'a' :: 's' :: 't' :: 'e' :: [])
      (a.data ++ ' ' :: W) = false :=
    @endsWith_tospace_false a.data W hTW hWne
  rw [parseIngredientL_split hA hR hWne hTaste]
  rw [parseStandardL_split hA hR hWne]
  have hWns : ∀ c ∈ W, pyIsSpace c = false :=
    fun c hc => lcLetter_not_space (List.all_eq_true.mp hW c hc)
  rw [splitOnce_nospace hWns]
  dsimp only
  rw [if_pos hok]
  rfl

theorem roundtrip_whole {a i : String}
    (hA : amountShape a.data = true)
    (hI : itemOk i.data = true) (hIne : i.data ≠ [])
    (hIu : isUnitWord (lowerL (splitOnce i.data).1) = false)
    (hT : startsWithL ['e', 't', 's', 'a', 't'] i.data.reverse = false) :
    parseIngredientL (a.data ++ ' ' :: i.data) =
      Except.ok ⟨some a, some "whole", some i, none⟩ := by
  have hTaste : endsWithL
      (' ' :: 't' :: 'o' :: ' ' :: 't' :: 'a' :: 's' :: 't' :: 'e' :: [])
      (a.data ++ ' ' :: i.data) = false :=
    @endsWith_tospace_false a.data i.data hT hIne
  rw [parseIngredientL_split hA hI hIne hTaste]
  rw [parseStandardL_split hA hI hIne]
  have hneg : ¬ isUnitWord (lowerL (splitOnce i.data).1) = true := by
    rw [hIu]
    intro h
    cases h
  rw [if_neg hneg]
  rw [cleanItem_itemOk hI]


/-- The pluralized display unit of `format_ingredient` (its internal `unitF`),
named so the formatting lemmas can state which of `u`/`u ++ "s"` is emitted. -/
def pluralUnit (a u : String) : String :=
  match pyFloat a.data with
  | some v =>
    if (⟨1, 1⟩ : Q).ltB v && !endsWithL ['s'] u.data
        && !(["tsp", "tbsp", "oz", "lb", "g", "kg", "ml", "l"].any (fun x => x = u)) then
      u ++ "s"
    else u
  | none => u

theorem pluralUnit_cases (a u : String) :
    pluralUnit a u = u ∨ pluralUnit a u = u ++ "s" := by
  unfold pluralUnit
  split
  · split
    · right; rfl
    · left; rfl
  · left; rfl

theorem format_std_full {a u i : String} (ha : ¬ a = "")
    (hu1 : ¬ u = "") (hu2 : ¬ u = "whole") (hi : ¬ i = "") :
    format_ingredient ⟨some a, some u, some i, none⟩ =
      ⟨a.data ++ ' ' :: ((pluralUnit a u).data ++ ' ' :: i.data)⟩ := by
  have hC1 : (u ≠ "" && u ≠ "whole") = true := by simp [hu1, hu2]
  unfold format_ingredient pluralUnit
  dsimp only [Option.getD]
  rw [if_neg ha, if_pos hC1, if_pos hi]
  cases hpf : pyFloat a.data with
  | none => simp [joinSp]
  | some v => simp [joinSp]

theorem format_std_unit_noitem {a u : String} (ha : ¬ a = "")
    (hu1 : ¬ u = "") (hu2 : ¬ u = "whole") :
    format_ingredient ⟨some a, some u, some "", none⟩ =
      ⟨a.data ++ ' ' :: (pluralUnit a u).data⟩ := by
  have hC1 : (u ≠ "" && u ≠ "whole") = true := by simp [hu1, hu2]
  have hC2 : ¬ ("" : String) ≠ "" := fun h => h rfl
  unfold format_ingredient pluralUnit
  dsimp only [Option.getD]
  rw [if_neg ha, if_pos hC1, if_neg hC2]
  cases hpf : pyFloat a.data with
  | none => simp [joinSp]
  | some v => simp [joinSp]

theorem format_std_whole {a i : String} (ha : ¬ a = "") (hi : ¬ i = "") :
    format_ingredient ⟨some a, some "whole", some i, none⟩ =
      ⟨a.data ++ ' ' :: i.data⟩ := by
  have hC1 : ¬ (("whole" : String) ≠ "" && ("whole" : String) ≠ "whole") = true := by
    simp
  unfold format_ingredient
  dsimp only [Option.getD]
  rw [if_neg ha, if_neg hC1, if_pos hi]
  simp [joinSp]

theorem format_std_whole_noitem {a : String} (ha : ¬ a = "") :
    format_ingredient ⟨some a, some "whole", some "", none⟩ = ⟨a.data⟩ := by
  have hC1 : ¬ (("whole" : String) ≠ "" && ("whole" : String) ≠ "whole") = true := by
    simp
  have hC2 : ¬ ("" : String) ≠ "" := fun h => h rfl
  unfold format_ingredient
  dsimp only [Option.getD]
  rw [if_neg ha, if_neg hC1, if_neg hC2]
  simp [joinSp]


theorem pluralUnit_noplural {a u : String}
    (hnop : (["tsp", "tbsp", "oz", "lb", "g", "kg", "ml", "l"].any fun x => x = u)
      = true) :
    pluralUnit a u = u := by
  unfold pluralUnit
  split
  · rw [hnop]
    simp
  · rfl

theorem string_ne_nil {i : String} (hi : ¬ i = "") : i.data ≠ [] :=
  fun h => hi (String.ext (h.trans rfl))

theorem roundtrip_unit_case {a i u : String}
    (hA : amountShape a.data = true)
    (hI : itemOk i.data = true)
    (hT : startsWithL ['e', 't', 's', 'a', 't'] i.data.reverse = false)
    (ha : ¬ a = "")
    (hu1 : ¬ u = "") (hu2 : ¬ u = "whole")
    (hsing : u.data.all lcLetter = true) (hsne : u.data.isEmpty = false)
    (hoksing : isUnitWord (lowerL u.data) = true)
    (hplur : (u ++ "s").data.all lcLetter = true)
    (hpne : (u ++ "s").data.isEmpty = false)
    (hokplur : isUnitWord (lowerL (u ++ "s").data) = true)
    (hTs : startsWithL ['e', 't', 's', 'a', 't'] u.data.reverse = false)
    (hTp : startsWithL ['e', 't', 's', 'a', 't'] (u ++ "s").data.reverse = false)
    (hns : normalize_unit ⟨lowerL u.data⟩ = u)
    (hnp : normalize_unit ⟨lowerL (u ++ "s").data⟩ = u) :
    parse_ingredient (format_ingredient ⟨some a, some u, some i, none⟩) =
      Except.ok ⟨some a, some u, some i, none⟩ := by
  by_cases hi : i = ""
  · subst hi
    rw [format_std_unit_noitem ha hu1 hu2]
    rcases pluralUnit_cases a u with hP | hP <;> rw [hP]
    · have h := roundtrip_unit_empty hA hsing (ne_nil_of_isEmpty_false hsne) hoksing hTs
      rw [hns] at h
      exact h
    · have h := roundtrip_unit_empty hA hplur (ne_nil_of_isEmpty_false hpne) hokplur hTp
      rw [hnp] at h
      exact h
  · have hIne : i.data ≠ [] := string_ne_nil hi
    rw [format_std_full ha hu1 hu2 hi]
    rcases pluralUnit_cases a u with hP | hP <;> rw [hP]
    · have h := roundtrip_unit_item hA hI hIne hsing (ne_nil_of_isEmpty_false hsne)
        hoksing hT
      rw [hns] at h
      exact h
    · have h := roundtrip_unit_item hA hI hIne hplur (ne_nil_of_isEmpty_false hpne)
        hokplur hT
      rw [hnp] at h
      exact h

theorem roundtrip_unit_noplural {a i u : String}
    (hA : amountShape a.data = true)
    (hI : itemOk i.data = true)
    (hT : startsWithL ['e', 't', 's', 'a', 't'] i.data.reverse = false)
    (ha : ¬ a = "")
    (hu1 : ¬ u = "") (hu2 : ¬ u = "whole")
    (hsing : u.data.all lcLetter = true) (hsne : u.data.isEmpty = false)
    (hoksing : isUnitWord (lowerL u.data) = true)
    (hTs : startsWithL ['e', 't', 's', 'a', 't'] u.data.reverse = false)
    (hns : normalize_unit ⟨lowerL u.data⟩ = u)
    (hnop : (["tsp", "tbsp", "oz", "lb", "g", "kg", "ml", "l"].any fun x => x = u)
      = true) :
    parse_ingredient (format_ingredient ⟨some a, some u, some i, none⟩) =
      Except.ok ⟨some a, some u, some i, none⟩ := by
  by_cases hi : i = ""
  · subst hi
    rw [format_std_unit_noitem ha hu1 hu2, pluralUnit_noplural hnop]
    have h := roundtrip_unit_empty hA hsing (ne_nil_of_isEmpty_false hsne) hoksing hTs
    rw [hns] at h
    exact h
  · have hIne : i.data ≠ [] := string_ne_nil hi
    rw [format_std_full ha hu1 hu2 hi, pluralUnit_noplural hnop]
    have h := roundtrip_unit_item hA hI hIne hsing (ne_nil_of_isEmpty_false hsne)
      hoksing hT
    rw [hns] at h
    exact h

theorem roundtrip_whole_case {a i : String}
    (hA : amountShape a.data = true)
    (hI : itemOk i.data = true)
    (hIu : isUnitWord (lowerL (splitOnce i.data).1) = false)
    (hT : startsWithL ['e', 't', 's', 'a', 't'] i.data.reverse = false)
    (ha : ¬ a = "") :
    parse_ingredient (format_ingredient ⟨some a, some "whole", some i, none⟩) =
      Except.ok ⟨some a, some "whole", some i, none⟩ := by
  by_cases hi : i = ""
  · subst hi
    rw [format_std_whole_noitem ha]
    exact parseIngredientL_amount_only hA
  · have hIne : i.data ≠ [] := string_ne_nil hi
    rw [format_std_whole ha hi]
    exact roundtrip_whole hA hI hIne hIu hT

/-- C3 (corrected): for a record of the standard shape — amount a bare
integer, range or decimal literal, unit `"whole"` or one of the canonical
codes whose naive pluralization is recognized back, item lowercase letters
and spaces, trimmed, with a first word that is not a unit token and not
ending in `"taste"` — re-parsing the formatted output returns the record
exactly. -/
theorem C3_roundtrip_standard (a u i : String)
    (hA : amountShape a.data = true)
    (hU : u ∈ okUnits)
    (hI : itemOk i.data = true)
    (hIu : isUnitWord (lowerL (splitOnce i.data).1) = false)
    (hT : startsWithL ['e', 't', 's', 'a', 't'] i.data.reverse = false) :
    parse_ingredient (format_ingredient ⟨some a, some u, some i, none⟩) =
      Except.ok ⟨some a, some u, some i, none⟩ := by
  have ha : ¬ a = "" := by
    intro h
    subst h
    have he : amountShape ("" : String).data = false := rfl
    rw [he] at hA
    exact Bool.noConfusion hA
  simp only [okUnits, List.mem_cons, List.not_mem_nil, or_false] at hU
  rcases hU with rfl | rfl | rfl | rfl | rfl | rfl | rfl | rfl | rfl | rfl | rfl
    | rfl | rfl | rfl | rfl | rfl
  · exact roundtrip_unit_noplural hA hI hT ha (by simp) (by simp) rfl rfl rfl rfl rfl rfl
  · exact roundtrip_unit_noplural hA hI hT ha (by simp) (by simp) rfl rfl rfl rfl rfl rfl
  · exact roundtrip_unit_case hA hI hT ha (by simp) (by simp) rfl rfl rfl rfl rfl rfl
      rfl rfl rfl rfl
  · exact roundtrip_unit_noplural hA hI hT ha (by simp) (by simp) rfl rfl rfl rfl rfl rfl
  · exact roundtrip_unit_noplural hA hI hT ha (by simp) (by simp) rfl rfl rfl rfl rfl rfl
  · exact roundtrip_unit_noplural hA hI hT ha (by simp) (by simp) rfl rfl rfl rfl rfl rfl
  · exact roundtrip_unit_noplural hA hI hT ha (by simp) (by simp) rfl rfl rfl rfl rfl rfl
  · exact roundtrip_unit_noplural hA hI hT ha (by simp) (by simp) rfl rfl rfl rfl rfl rfl
  · exact roundtrip_unit_noplural hA hI hT ha (by simp) (by simp) rfl rfl rfl rfl rfl rfl
  · exact roundtrip_unit_case hA hI hT ha (by simp) (by simp) rfl rfl rfl rfl rfl rfl
      rfl rfl rfl rfl
  · exact roundtrip_unit_case hA hI hT ha (by simp) (by simp) rfl rfl rfl rfl rfl rfl
      rfl rfl rfl rfl
  · exact roundtrip_unit_case hA hI hT ha (by simp) (by simp) rfl rfl rfl rfl rfl rfl
      rfl rfl rfl rfl
  · exact roundtrip_unit_case hA hI hT ha (by simp) (by simp) rfl rfl rfl rfl rfl rfl
      rfl rfl rfl rfl
  · exact roundtrip_unit_case hA hI hT ha (by simp) (by simp) rfl rfl rfl rfl rfl rfl
      rfl rfl rfl rfl
  · exact roundtrip_unit_case hA hI hT ha (by simp) (by simp) rfl rfl rfl rfl rfl rfl
      rfl rfl rfl rfl
  · exact roundtrip_whole_case hA hI hIu hT ha

/-- C3 witness: the theorem applied at the concrete record
`{amount: "2", unit: "cup", item: "flour"}`. -/
theorem C3_roundtrip_standard_witness :
    amountShape ("2" : String).data = true
      ∧ ("cup" : String) ∈ okUnits
      ∧ itemOk ("flour" : String).data = true
      ∧ isUnitWord (lowerL (splitOnce ("flour" : String).data).1) = false
      ∧ startsWithL ['e', 't', 's', 'a', 't'] ("flour" : String).data.reverse = false
      ∧ parse_ingredient (format_ingredient ⟨some "2", some "cup", some "flour", none⟩) =
          Except.ok ⟨some "2", some "cup", some "flour", none⟩ :=
  ⟨rfl, by simp [okUnits], rfl, rfl, rfl,
   C3_roundtrip_standard "2" "cup" "flour" rfl (by simp [okUnits]) rfl rfl rfl⟩


end KitchenOS

